import Mathlib

/-!
Verification of the sales_analyze repository core: the finance derivation
utilities (`calculatePL`, `calculateCumulative`), the ledger state of the
forecasting page (`effectiveValue`, plan edits, actuals import, per-month
rollup), the debit/credit sign adjustment, and month-string normalization.

Conventions of the shallow embedding:
* JavaScript numbers are modelled as rationals (`ℚ`); no computation in the
  embedded core divides except for the margin fields, which the source guards
  against a zero denominator.
* Optional (possibly-absent) record fields are `Option ℚ`; `x || 0` on a
  numeric-or-absent field is `Option.getD 0` (a present `0` yields `0` either
  way).
* JavaScript objects used as string-keyed dictionaries are association lists
  `List (String × α)` with first-match lookup.
-/

namespace SalesAnalyze

/-! ## Finance utilities (lib/finance.ts) -/

/-- `MonthlyPL` from lib/finance.ts: one month's profit-and-loss line.
`nonOperating`, `extraordinary`, `taxes` are optional fields. -/
structure MonthlyPL where
  month : String
  sales : ℚ
  cogs : ℚ
  sga : ℚ
  nonOperating : Option ℚ
  extraordinary : Option ℚ
  taxes : Option ℚ
  isActual : Bool
  deriving DecidableEq

/-- `CalculatedPL` from lib/finance.ts: `MonthlyPL` plus derived fields. -/
structure CalculatedPL where
  month : String
  sales : ℚ
  cogs : ℚ
  sga : ℚ
  nonOperating : Option ℚ
  extraordinary : Option ℚ
  taxes : Option ℚ
  isActual : Bool
  grossProfit : ℚ
  operatingProfit : ℚ
  netIncome : ℚ
  grossMargin : Option ℚ
  operatingMargin : Option ℚ
  deriving DecidableEq

/-- `calculatePL` from lib/finance.ts. -/
def calculatePL (data : MonthlyPL) : CalculatedPL :=
  let grossProfit := data.sales - data.cogs
  let operatingProfit := grossProfit - data.sga
  let netIncome := operatingProfit +
    data.nonOperating.getD 0 +
    data.extraordinary.getD 0 -
    data.taxes.getD 0
  let grossMargin := if data.sales ≠ 0 then some (grossProfit / data.sales) else none
  let operatingMargin := if data.sales ≠ 0 then some (operatingProfit / data.sales) else none
  { month := data.month
    sales := data.sales
    cogs := data.cogs
    sga := data.sga
    nonOperating := data.nonOperating
    extraordinary := data.extraordinary
    taxes := data.taxes
    isActual := data.isActual
    grossProfit := grossProfit
    operatingProfit := operatingProfit
    netIncome := netIncome
    grossMargin := grossMargin
    operatingMargin := operatingMargin }

/-- The accumulator of the `reduce` inside `calculateCumulative`. -/
structure CumTotals where
  sales : ℚ
  cogs : ℚ
  sga : ℚ
  nonOperating : ℚ
  extraordinary : ℚ
  taxes : ℚ
  deriving DecidableEq

/-- One step of the `reduce` inside `calculateCumulative`. -/
def cumStep (acc : CumTotals) (curr : MonthlyPL) : CumTotals :=
  { sales := acc.sales + curr.sales
    cogs := acc.cogs + curr.cogs
    sga := acc.sga + curr.sga
    nonOperating := acc.nonOperating + curr.nonOperating.getD 0
    extraordinary := acc.extraordinary + curr.extraordinary.getD 0
    taxes := acc.taxes + curr.taxes.getD 0 }

/-- `calculateCumulative` from lib/finance.ts. -/
def calculateCumulative (data : List MonthlyPL) : CalculatedPL :=
  let totals := data.foldl cumStep ⟨0, 0, 0, 0, 0, 0⟩
  let grossProfit := totals.sales - totals.cogs
  let operatingProfit := grossProfit - totals.sga
  let netIncome := operatingProfit + totals.nonOperating + totals.extraordinary - totals.taxes
  { month := "cumulative"
    sales := totals.sales
    cogs := totals.cogs
    sga := totals.sga
    nonOperating := some totals.nonOperating
    extraordinary := some totals.extraordinary
    taxes := some totals.taxes
    isActual := false
    grossProfit := grossProfit
    operatingProfit := operatingProfit
    netIncome := netIncome
    grossMargin := if totals.sales ≠ 0 then some (grossProfit / totals.sales) else none
    operatingMargin := if totals.sales ≠ 0 then some (operatingProfit / totals.sales) else none }

/-! ### Fold-to-sum lemmas for `calculateCumulative` -/

theorem cumFold_sales (init : CumTotals) (l : List MonthlyPL) :
    (l.foldl cumStep init).sales = init.sales + (l.map (fun x => x.sales)).sum := by
  induction l generalizing init with
  | nil => simp
  | cons h t ih => simp [ih, cumStep, add_assoc]

theorem cumFold_cogs (init : CumTotals) (l : List MonthlyPL) :
    (l.foldl cumStep init).cogs = init.cogs + (l.map (fun x => x.cogs)).sum := by
  induction l generalizing init with
  | nil => simp
  | cons h t ih => simp [ih, cumStep, add_assoc]

theorem cumFold_sga (init : CumTotals) (l : List MonthlyPL) :
    (l.foldl cumStep init).sga = init.sga + (l.map (fun x => x.sga)).sum := by
  induction l generalizing init with
  | nil => simp
  | cons h t ih => simp [ih, cumStep, add_assoc]

theorem cumFold_nonOperating (init : CumTotals) (l : List MonthlyPL) :
    (l.foldl cumStep init).nonOperating
      = init.nonOperating + (l.map (fun x => x.nonOperating.getD 0)).sum := by
  induction l generalizing init with
  | nil => simp
  | cons h t ih => simp [ih, cumStep, add_assoc]

theorem cumFold_extraordinary (init : CumTotals) (l : List MonthlyPL) :
    (l.foldl cumStep init).extraordinary
      = init.extraordinary + (l.map (fun x => x.extraordinary.getD 0)).sum := by
  induction l generalizing init with
  | nil => simp
  | cons h t ih => simp [ih, cumStep, add_assoc]

theorem cumFold_taxes (init : CumTotals) (l : List MonthlyPL) :
    (l.foldl cumStep init).taxes = init.taxes + (l.map (fun x => x.taxes.getD 0)).sum := by
  induction l generalizing init with
  | nil => simp
  | cons h t ih => simp [ih, cumStep, add_assoc]

/-- C2: for every `MonthlyPL` input (including negative field values),
`calculatePL` returns `grossProfit = sales − cogs`,
`operatingProfit = grossProfit − sga`, and
`netIncome = operatingProfit + nonOperating + extraordinary − taxes`,
with absent optional fields treated as 0. -/
theorem calculatePL_profit_formulas (d : MonthlyPL) :
    (calculatePL d).grossProfit = d.sales - d.cogs ∧
    (calculatePL d).operatingProfit = (calculatePL d).grossProfit - d.sga ∧
    (calculatePL d).netIncome = (calculatePL d).operatingProfit
      + d.nonOperating.getD 0 + d.extraordinary.getD 0 - d.taxes.getD 0 := by
  refine ⟨rfl, rfl, rfl⟩

/-- C3: whenever `sales = 0` both margins are `null` (`none`), in `calculatePL`
and in `calculateCumulative`; whenever `sales ≠ 0` (including negative sales)
the margins are the numeric quotients `grossProfit/sales` and
`operatingProfit/sales`. -/
theorem margins_zero_sales_null (d : MonthlyPL) (l : List MonthlyPL) :
    (d.sales = 0 →
      (calculatePL d).grossMargin = none ∧ (calculatePL d).operatingMargin = none) ∧
    (d.sales ≠ 0 →
      (calculatePL d).grossMargin = some ((calculatePL d).grossProfit / d.sales) ∧
      (calculatePL d).operatingMargin = some ((calculatePL d).operatingProfit / d.sales)) ∧
    ((calculateCumulative l).sales = 0 →
      (calculateCumulative l).grossMargin = none ∧
      (calculateCumulative l).operatingMargin = none) ∧
    ((calculateCumulative l).sales ≠ 0 →
      (calculateCumulative l).grossMargin
        = some ((calculateCumulative l).grossProfit / (calculateCumulative l).sales) ∧
      (calculateCumulative l).operatingMargin
        = some ((calculateCumulative l).operatingProfit / (calculateCumulative l).sales)) := by
  refine ⟨fun h => ?_, fun h => ?_, fun h => ?_, fun h => ?_⟩ <;>
    simp only [calculatePL, calculateCumulative] at * <;>
    simp [h]

/-- Witness for C3 at concrete inputs: a zero-sales month gets `none` margins
and a nonzero-sales month gets quotient margins. -/
theorem margins_zero_sales_null_witness :
    (calculatePL ⟨"2025-01", 0, 100000, 50000, none, none, none, true⟩).grossMargin = none ∧
    (calculatePL ⟨"2025-01", 4, 1, 1, none, none, none, true⟩).grossMargin = some (3 / 4) := by
  constructor
  · exact (margins_zero_sales_null ⟨"2025-01", 0, 100000, 50000, none, none, none, true⟩ []).1
      rfl |>.1
  · have h := (margins_zero_sales_null ⟨"2025-01", 4, 1, 1, none, none, none, true⟩ []).2.1
      (by norm_num)
    rw [h.1]
    norm_num [calculatePL]

/-- C4: `calculateCumulative` is field-wise additive: each total equals the sum
of the corresponding per-month fields (absent optional fields counted as 0),
and the cumulative of the empty list has all six totals 0 and both margins
`null`. -/
theorem calculateCumulative_additive (l : List MonthlyPL) :
    (calculateCumulative l).sales = (l.map (fun x => x.sales)).sum ∧
    (calculateCumulative l).cogs = (l.map (fun x => x.cogs)).sum ∧
    (calculateCumulative l).sga = (l.map (fun x => x.sga)).sum ∧
    (calculateCumulative l).nonOperating = some (l.map (fun x => x.nonOperating.getD 0)).sum ∧
    (calculateCumulative l).extraordinary = some (l.map (fun x => x.extraordinary.getD 0)).sum ∧
    (calculateCumulative l).taxes = some (l.map (fun x => x.taxes.getD 0)).sum ∧
    ((calculateCumulative ([] : List MonthlyPL)).sales = 0 ∧
      (calculateCumulative ([] : List MonthlyPL)).cogs = 0 ∧
      (calculateCumulative ([] : List MonthlyPL)).sga = 0 ∧
      (calculateCumulative ([] : List MonthlyPL)).nonOperating = some 0 ∧
      (calculateCumulative ([] : List MonthlyPL)).extraordinary = some 0 ∧
      (calculateCumulative ([] : List MonthlyPL)).taxes = some 0 ∧
      (calculateCumulative ([] : List MonthlyPL)).grossMargin = none ∧
      (calculateCumulative ([] : List MonthlyPL)).operatingMargin = none) := by
  refine ⟨?_, ?_, ?_, ?_, ?_, ?_, ?_⟩
  · simpa using cumFold_sales ⟨0, 0, 0, 0, 0, 0⟩ l
  · simpa using cumFold_cogs ⟨0, 0, 0, 0, 0, 0⟩ l
  · simpa using cumFold_sga ⟨0, 0, 0, 0, 0, 0⟩ l
  · simpa [calculateCumulative] using cumFold_nonOperating ⟨0, 0, 0, 0, 0, 0⟩ l
  · simpa [calculateCumulative] using cumFold_extraordinary ⟨0, 0, 0, 0, 0, 0⟩ l
  · simpa [calculateCumulative] using cumFold_taxes ⟨0, 0, 0, 0, 0, 0⟩ l
  · refine ⟨rfl, rfl, rfl, rfl, rfl, rfl, rfl, rfl⟩

/-! ## Ledger and forecasting state (app/page.tsx) -/

inductive StatementType
  | PL
  | BS
  deriving DecidableEq

inductive PLCat
  | Revenue
  | Expense
  | Other
  deriving DecidableEq

structure Account where
  code : String
  name : String
  statement : StatementType
  plCategory : Option PLCat
  deriving DecidableEq

/-- `TBRow` from page.tsx: one normalized trial-balance row. -/
structure TBRow where
  month : String
  accountCode : String
  accountName : String
  amount : ℚ
  statement : StatementType
  deriving DecidableEq

/-- A JavaScript object used as a string-keyed dictionary (keys unique in
practice; lookup takes the first match). -/
abbrev Obj (α : Type) := List (String × α)

def objGet {α : Type} : Obj α → String → Option α
  | [], _ => none
  | (k, v) :: rest, key => if k = key then some v else objGet rest key

def objSet {α : Type} : Obj α → String → α → Obj α
  | [], key, v => [(key, v)]
  | (k, w) :: rest, key, v =>
    if k = key then (k, v) :: rest else (k, w) :: objSet rest key v

/-- `delete o[key]` on a JavaScript object. -/
def objDelete {α : Type} (o : Obj α) (key : String) : Obj α :=
  o.filter (fun p => p.1 != key)

/-- `ensureObject` from page.tsx: `o ? o : {}`. -/
def ensureObject {α : Type} : Option (Obj α) → Obj α
  | some o => o
  | none => []

/-- `month -> accountCode -> amount`, the shape of `actuals` and `plan`. -/
abbrev Nested := Obj (Obj ℚ)

/-- Nested lookup `ensureObject(o[m])[c]`. -/
def get2 (o : Nested) (m c : String) : Option ℚ :=
  objGet (ensureObject (objGet o m)) c

structure AppState where
  accounts : List Account
  actuals : Nested
  plan : Nested
  deriving DecidableEq

/-- The effective value used by the rollup and export in page.tsx:
`(actual[acc.code] ?? plan[acc.code] ?? 0)`. -/
def effectiveValue (st : AppState) (m code : String) : ℚ :=
  match get2 st.actuals m code with
  | some v => v
  | none =>
    match get2 st.plan m code with
    | some w => w
    | none => 0

/-- `setPlanAmount` from page.tsx (plan is a direct overwrite). -/
def setPlanAmount (st : AppState) (month code : String) (amount : ℚ) : AppState :=
  { st with
      plan := objSet st.plan month
        (objSet (ensureObject (objGet st.plan month)) code amount) }

/-- `clearPlanForAccount` from page.tsx:
`for (const m of Object.keys(plan)) delete plan[m][code]`. -/
def clearPlanForAccount (st : AppState) (code : String) : AppState :=
  { st with plan := st.plan.map (fun p => (p.1, objDelete p.2 code)) }

/-- A user plan edit: either a `setPlanAmount` or a `clearPlanForAccount`. -/
inductive PlanEdit
  | set (month code : String) (amount : ℚ)
  | clear (code : String)

def applyPlanEdit (st : AppState) : PlanEdit → AppState
  | .set m c a => setPlanAmount st m c a
  | .clear c => clearPlanForAccount st c

def applyPlanEdits (st : AppState) (es : List PlanEdit) : AppState :=
  es.foldl applyPlanEdit st

/-- The actuals-accumulation step of `importRows`:
`actuals[r.month] = ensureObject(actuals[r.month]);
 actuals[r.month][r.accountCode] = (actuals[r.month][r.accountCode] || 0) + r.amount`. -/
def recordActual (a : Nested) (r : TBRow) : Nested :=
  let inner := ensureObject (objGet a r.month)
  objSet a r.month
    (objSet inner r.accountCode ((objGet inner r.accountCode).getD 0 + r.amount))

/-- The whole actuals-accumulation loop of `importRows` over a batch. -/
def importActuals (a : Nested) (rows : List TBRow) : Nested :=
  rows.foldl recordActual a

/-- `toUpperCase` on a string, character by character (ASCII letters map to
upper case, CJK characters are unchanged). -/
def jsToUpper (s : String) : String :=
  String.mk (s.data.map Char.toUpper)

/-- Substring test for a single character (`/貸/.test(dc)` etc.). -/
def jsContains (s : String) (c : Char) : Bool :=
  s.data.contains c

/-- The debit/credit sign adjustment in `importRows`. Both `if`s run in
sequence: first the credit test, then the debit test on the updated amount. -/
def adjustDC (dcRaw : String) (amount : ℚ) : ℚ :=
  let dc := jsToUpper dcRaw
  let a1 := if dc = "C" ∨ jsContains dc '貸' then -|amount| else amount
  if dc = "D" ∨ jsContains dc '借' then |a1| else a1

/-- The per-account accumulation step inside `forecastByMonth`. -/
def rollupStep (st : AppState) (m : String) (p : ℚ × ℚ) (acc : Account) : ℚ × ℚ :=
  let val := effectiveValue st m acc.code
  if acc.plCategory = some .Revenue then (p.1 + val, p.2)
  else if acc.plCategory = some .Expense then (p.1, p.2 + val)
  else p

structure ForecastRow where
  month : String
  Revenue : ℚ
  Expense : ℚ
  Profit : ℚ
  deriving DecidableEq

/-- One row of `forecastByMonth` (the body of the `map` over months). -/
def forecastRow (st : AppState) (m : String) : ForecastRow :=
  let plAccounts := st.accounts.filter (fun a => a.statement == .PL)
  let re := plAccounts.foldl (rollupStep st m) (0, 0)
  ⟨m, re.1, re.2, re.1 - re.2⟩

/-- `forecastByMonth` from page.tsx. -/
def forecastByMonth (st : AppState) (months : List String) : List ForecastRow :=
  months.map (forecastRow st)

/-! ### Dictionary lemmas -/

theorem objGet_objSet_self {α : Type} (o : Obj α) (k : String) (v : α) :
    objGet (objSet o k v) k = some v := by
  induction o with
  | nil => simp [objSet, objGet]
  | cons p rest ih =>
    obtain ⟨pk, pv⟩ := p
    by_cases h : pk = k
    · simp [objSet, objGet, h]
    · simp [objSet, objGet, h, ih]

theorem objGet_objSet_ne {α : Type} (o : Obj α) (k k' : String) (v : α) (h : k' ≠ k) :
    objGet (objSet o k v) k' = objGet o k' := by
  have h2 : ¬ k = k' := fun e => h (Eq.symm e)
  induction o with
  | nil => simp [objSet, objGet, h2]
  | cons p rest ih =>
    obtain ⟨pk, pv⟩ := p
    by_cases hk : pk = k
    · subst hk
      simp [objSet, objGet, h2]
    · simp [objSet, objGet, hk, ih]

theorem objGet_objDelete_self {α : Type} (o : Obj α) (k : String) :
    objGet (objDelete o k) k = none := by
  induction o with
  | nil => rfl
  | cons p rest ih =>
    obtain ⟨pk, pv⟩ := p
    by_cases h : pk = k
    · simpa [objDelete, List.filter_cons, h] using ih
    · simpa [objDelete, objGet, List.filter_cons, h] using ih

theorem objGet_objDelete_ne {α : Type} (o : Obj α) (k k' : String) (h : k' ≠ k) :
    objGet (objDelete o k) k' = objGet o k' := by
  have h2 : ¬ k = k' := fun e => h (Eq.symm e)
  induction o with
  | nil => rfl
  | cons p rest ih =>
    obtain ⟨pk, pv⟩ := p
    by_cases hk : pk = k
    · subst hk
      simpa [objDelete, objGet, List.filter_cons, h2] using ih
    · have ih2 : objGet (List.filter (fun p => p.1 != k) rest) k' = objGet rest k' := ih
      simp [objDelete, objGet, List.filter_cons, hk, ih2]

theorem objGet_map {α β : Type} (f : α → β) (o : Obj α) (k : String) :
    objGet (o.map (fun p => (p.1, f p.2))) k = (objGet o k).map f := by
  induction o with
  | nil => rfl
  | cons p rest ih =>
    obtain ⟨pk, pv⟩ := p
    by_cases h : pk = k <;> simp [objGet, h, ih]

theorem applyPlanEdit_actuals (st : AppState) (e : PlanEdit) :
    (applyPlanEdit st e).actuals = st.actuals := by
  cases e <;> rfl

theorem applyPlanEdit_accounts (st : AppState) (e : PlanEdit) :
    (applyPlanEdit st e).accounts = st.accounts := by
  cases e <;> rfl

theorem applyPlanEdits_actuals (st : AppState) (es : List PlanEdit) :
    (applyPlanEdits st es).actuals = st.actuals := by
  induction es generalizing st with
  | nil => rfl
  | cons e t ih =>
    show (applyPlanEdits (applyPlanEdit st e) t).actuals = st.actuals
    rw [ih, applyPlanEdit_actuals]

/-- C1: the effective value equals the actuals entry when present (even when
it is 0), else the plan entry when present, else 0; and once an actuals entry
exists for `(m, code)`, no sequence of plan edits changes the effective
value. -/
theorem effectiveValue_actuals_precedence (st : AppState) (m code : String) :
    (∀ v, get2 st.actuals m code = some v → effectiveValue st m code = v) ∧
    (get2 st.actuals m code = none →
      effectiveValue st m code = (get2 st.plan m code).getD 0) ∧
    (∀ es : List PlanEdit, get2 st.actuals m code ≠ none →
      effectiveValue (applyPlanEdits st es) m code = effectiveValue st m code) := by
  refine ⟨fun v hv => ?_, fun h => ?_, fun es h => ?_⟩
  · simp [effectiveValue, hv]
  · cases hp : get2 st.plan m code <;> simp [effectiveValue, h, hp]
  · obtain ⟨v, hv⟩ := Option.ne_none_iff_exists'.mp h
    have ha : get2 (applyPlanEdits st es).actuals m code = some v := by
      rw [applyPlanEdits_actuals]
      exact hv
    simp [effectiveValue, hv, ha]

/-- Witness for C1: a zero actual beats a nonzero plan, and a later plan edit
at the same cell does not change the effective value. -/
theorem effectiveValue_actuals_precedence_witness :
    effectiveValue ⟨[], [("2025-01", [("4000", 0)])], [("2025-01", [("4000", 999)])]⟩
        "2025-01" "4000" = 0 ∧
    effectiveValue
        (applyPlanEdits ⟨[], [("2025-01", [("4000", 0)])], []⟩
          [PlanEdit.set "2025-01" "4000" 5])
        "2025-01" "4000"
      = effectiveValue ⟨[], [("2025-01", [("4000", 0)])], []⟩ "2025-01" "4000" := by
  constructor
  · exact (effectiveValue_actuals_precedence
      ⟨[], [("2025-01", [("4000", 0)])], [("2025-01", [("4000", 999)])]⟩
      "2025-01" "4000").1 0 (by decide)
  · exact (effectiveValue_actuals_precedence
      ⟨[], [("2025-01", [("4000", 0)])], []⟩ "2025-01" "4000").2.2
      [PlanEdit.set "2025-01" "4000" 5] (by decide)

/-! ### Import additivity -/

theorem recordActual_get2 (a : Nested) (r : TBRow) (m c : String) :
    get2 (recordActual a r) m c =
      if r.month = m ∧ r.accountCode = c then some ((get2 a m c).getD 0 + r.amount)
      else get2 a m c := by
  by_cases hm : r.month = m
  · subst hm
    by_cases hc : r.accountCode = c
    · subst hc
      simp [recordActual, get2, objGet_objSet_self, ensureObject]
    · rw [if_neg (fun hh => hc hh.2)]
      show objGet (ensureObject (objGet (objSet a r.month _) r.month)) c = _
      rw [objGet_objSet_self]
      show objGet (objSet _ r.accountCode _) c = _
      rw [objGet_objSet_ne _ _ _ _ (fun e => hc (Eq.symm e))]
      rfl
  · rw [if_neg (fun hh => hm hh.1)]
    show objGet (ensureObject (objGet (objSet a r.month _) m)) c = _
    rw [objGet_objSet_ne _ _ _ _ (fun e => hm (Eq.symm e))]
    rfl

theorem recordActual_isSome_mono (a : Nested) (r : TBRow) (m c : String)
    (h : (get2 a m c).isSome = true) :
    (get2 (recordActual a r) m c).isSome = true := by
  rw [recordActual_get2]
  split <;> simp_all

theorem importActuals_isSome_mono (a : Nested) (rows : List TBRow) (m c : String)
    (h : (get2 a m c).isSome = true) :
    (get2 (importActuals a rows) m c).isSome = true := by
  induction rows generalizing a with
  | nil => exact h
  | cons r t ih => exact ih (recordActual a r) (recordActual_isSome_mono a r m c h)

theorem importActuals_getD (a : Nested) (rows : List TBRow) (m c : String) :
    (get2 (importActuals a rows) m c).getD 0
      = (get2 a m c).getD 0
        + ((rows.filter (fun r => r.month == m && r.accountCode == c)).map
            (fun r => r.amount)).sum := by
  induction rows generalizing a with
  | nil => simp [importActuals]
  | cons r t ih =>
    show (get2 (importActuals (recordActual a r) t) m c).getD 0 = _
    rw [ih (recordActual a r), recordActual_get2]
    by_cases h : r.month = m ∧ r.accountCode = c
    · rw [if_pos h]
      simp [List.filter_cons, h.1, h.2, add_assoc]
    · rw [if_neg h]
      have hb : (r.month == m && r.accountCode == c) = false := by
        rcases not_and_or.mp h with h1 | h1 <;> simp [h1]
      simp [List.filter_cons, hb]

/-- C9: recording actuals is additive: after importing a batch, each actuals
cell equals its previous value (0 if absent) plus the sum of the amounts of
all batch rows with the same month and account code; and a matching row
guarantees the cell is present afterwards. -/
theorem importActuals_additive (a : Nested) (rows : List TBRow) (m c : String) :
    (get2 (importActuals a rows) m c).getD 0
      = (get2 a m c).getD 0
        + ((rows.filter (fun r => r.month == m && r.accountCode == c)).map
            (fun r => r.amount)).sum ∧
    ((∃ r ∈ rows, r.month = m ∧ r.accountCode = c) →
      (get2 (importActuals a rows) m c).isSome = true) := by
  refine ⟨importActuals_getD a rows m c, fun h => ?_⟩
  induction rows generalizing a with
  | nil => simp at h
  | cons r t ih =>
    show (get2 (importActuals (recordActual a r) t) m c).isSome = true
    rcases h with ⟨r', hr', hmc⟩
    rcases List.mem_cons.mp hr' with rfl | hmem
    · refine importActuals_isSome_mono _ t m c ?_
      rw [recordActual_get2, if_pos hmc]
      rfl
    · exact ih (recordActual a r) ⟨r', hmem, hmc⟩

/-- Witness for C9: two rows for the same cell sum on top of an existing
actual value. -/
theorem importActuals_additive_witness :
    (get2 (importActuals [("2025-01", [("4000", 7)])]
        [⟨"2025-01", "4000", "売上高", 3, StatementType.PL⟩,
         ⟨"2025-01", "4000", "売上高", 4, StatementType.PL⟩])
      "2025-01" "4000").getD 0 = 7 + (3 + (4 + 0)) ∧
    (get2 (importActuals [("2025-01", [("4000", 7)])]
        [⟨"2025-01", "4000", "売上高", 3, StatementType.PL⟩,
         ⟨"2025-01", "4000", "売上高", 4, StatementType.PL⟩])
      "2025-01" "4000").isSome = true := by
  constructor
  · rw [(importActuals_additive [("2025-01", [("4000", 7)])]
      [⟨"2025-01", "4000", "売上高", 3, StatementType.PL⟩,
       ⟨"2025-01", "4000", "売上高", 4, StatementType.PL⟩] "2025-01" "4000").1]
    simp [get2, objGet, ensureObject, List.filter_cons]
  · exact (importActuals_additive [("2025-01", [("4000", 7)])]
      [⟨"2025-01", "4000", "売上高", 3, StatementType.PL⟩,
       ⟨"2025-01", "4000", "売上高", 4, StatementType.PL⟩] "2025-01" "4000").2
      ⟨⟨"2025-01", "4000", "売上高", 3, StatementType.PL⟩, by simp, rfl, rfl⟩

/-- C10: clearing the plan for an account removes that account's plan entry
from every month and changes nothing else. -/
theorem clearPlanForAccount_frame (st : AppState) (code : String) :
    (∀ m, get2 (clearPlanForAccount st code).plan m code = none) ∧
    (∀ m c, c ≠ code → get2 (clearPlanForAccount st code).plan m c = get2 st.plan m c) ∧
    (clearPlanForAccount st code).actuals = st.actuals ∧
    (clearPlanForAccount st code).accounts = st.accounts := by
  refine ⟨fun m => ?_, fun m c hc => ?_, rfl, rfl⟩
  · show objGet (ensureObject (objGet (st.plan.map _) m)) code = none
    rw [objGet_map (fun inner => objDelete inner code) st.plan m]
    cases objGet st.plan m <;>
      simp [ensureObject, objGet, objGet_objDelete_self]
  · show objGet (ensureObject (objGet (st.plan.map _) m)) c
      = objGet (ensureObject (objGet st.plan m)) c
    rw [objGet_map (fun inner => objDelete inner code) st.plan m]
    cases objGet st.plan m <;>
      simp [ensureObject, objGet, objGet_objDelete_ne _ _ _ hc]

/-- Witness for C10: clearing code 4000 removes its plan entry but keeps
code 5000's plan entry and the actuals. -/
theorem clearPlanForAccount_frame_witness :
    get2 (clearPlanForAccount
        ⟨[], [("2025-01", [("4000", 1)])],
          [("2025-01", [("4000", 2), ("5000", 3)])]⟩ "4000").plan "2025-01" "4000" = none ∧
    get2 (clearPlanForAccount
        ⟨[], [("2025-01", [("4000", 1)])],
          [("2025-01", [("4000", 2), ("5000", 3)])]⟩ "4000").plan "2025-01" "5000"
      = get2 [("2025-01", [("4000", 2), ("5000", 3)])] "2025-01" "5000" ∧
    (clearPlanForAccount
        ⟨[], [("2025-01", [("4000", 1)])],
          [("2025-01", [("4000", 2), ("5000", 3)])]⟩ "4000").actuals
      = [("2025-01", [("4000", 1)])] := by
  refine ⟨(clearPlanForAccount_frame
      ⟨[], [("2025-01", [("4000", 1)])], [("2025-01", [("4000", 2), ("5000", 3)])]⟩
      "4000").1 "2025-01",
    (clearPlanForAccount_frame
      ⟨[], [("2025-01", [("4000", 1)])], [("2025-01", [("4000", 2), ("5000", 3)])]⟩
      "4000").2.1 "2025-01" "5000" (by decide),
    (clearPlanForAccount_frame
      ⟨[], [("2025-01", [("4000", 1)])], [("2025-01", [("4000", 2), ("5000", 3)])]⟩
      "4000").2.2.1⟩

/-! ### Per-month rollup -/

theorem rollup_fold (st : AppState) (m : String) (l : List Account) (p : ℚ × ℚ) :
    l.foldl (rollupStep st m) p
      = (p.1 + ((l.filter (fun a => a.plCategory == some PLCat.Revenue)).map
            (fun a => effectiveValue st m a.code)).sum,
         p.2 + ((l.filter (fun a => a.plCategory == some PLCat.Expense)).map
            (fun a => effectiveValue st m a.code)).sum) := by
  induction l generalizing p with
  | nil => simp
  | cons a t ih =>
    rw [List.foldl_cons, ih]
    cases h : a.plCategory with
    | none => simp [rollupStep, h, List.filter_cons]
    | some cat =>
      cases cat <;> simp [rollupStep, h, List.filter_cons, add_assoc]

/-- C7: for every month `m` in the sequence, the rollup row is produced, its
`Revenue` is the sum of `effectiveValue m` over PL accounts classified
`Revenue`, its `Expense` the sum over PL accounts classified `Expense`
(so `Other`-classified and BS accounts contribute to neither), and
`Profit = Revenue − Expense`. -/
theorem forecastByMonth_rollup (st : AppState) (months : List String) (m : String)
    (hm : m ∈ months) :
    forecastRow st m ∈ forecastByMonth st months ∧
    (forecastRow st m).Revenue
      = ((st.accounts.filter (fun a => a.statement == StatementType.PL
            && a.plCategory == some PLCat.Revenue)).map
          (fun a => effectiveValue st m a.code)).sum ∧
    (forecastRow st m).Expense
      = ((st.accounts.filter (fun a => a.statement == StatementType.PL
            && a.plCategory == some PLCat.Expense)).map
          (fun a => effectiveValue st m a.code)).sum ∧
    (forecastRow st m).Profit = (forecastRow st m).Revenue - (forecastRow st m).Expense := by
  have hcomm : ∀ (cat : Option PLCat),
      st.accounts.filter (fun a => a.plCategory == cat && a.statement == StatementType.PL)
        = st.accounts.filter (fun a => a.statement == StatementType.PL
            && a.plCategory == cat) := by
    intro cat
    apply List.filter_congr
    intro a _
    rw [Bool.and_comm]
  refine ⟨List.mem_map_of_mem _ hm, ?_, ?_, rfl⟩
  · show ((st.accounts.filter (fun a => a.statement == StatementType.PL)).foldl
        (rollupStep st m) (0, 0)).1 = _
    rw [rollup_fold, List.filter_filter]
    simp [hcomm]
  · show ((st.accounts.filter (fun a => a.statement == StatementType.PL)).foldl
        (rollupStep st m) (0, 0)).2 = _
    rw [rollup_fold, List.filter_filter]
    simp [hcomm]

/-- Witness for C7 on a two-account, one-month state: a Revenue account and an
Other account; only the Revenue account reaches the rollup sums. -/
theorem forecastByMonth_rollup_witness :
    (forecastRow
        ⟨[⟨"4000", "売上高", StatementType.PL, some PLCat.Revenue⟩,
          ⟨"7000", "雑収入", StatementType.PL, some PLCat.Other⟩],
         [("2025-01", [("4000", 10), ("7000", 99)])], []⟩ "2025-01").Revenue
      = ((([⟨"4000", "売上高", StatementType.PL, some PLCat.Revenue⟩,
          ⟨"7000", "雑収入", StatementType.PL, some PLCat.Other⟩] : List Account).filter
            (fun a => a.statement == StatementType.PL
              && a.plCategory == some PLCat.Revenue)).map
          (fun a => effectiveValue
            ⟨[⟨"4000", "売上高", StatementType.PL, some PLCat.Revenue⟩,
              ⟨"7000", "雑収入", StatementType.PL, some PLCat.Other⟩],
             [("2025-01", [("4000", 10), ("7000", 99)])], []⟩ "2025-01" a.code)).sum := by
  exact (forecastByMonth_rollup
    ⟨[⟨"4000", "売上高", StatementType.PL, some PLCat.Revenue⟩,
      ⟨"7000", "雑収入", StatementType.PL, some PLCat.Other⟩],
     [("2025-01", [("4000", 10), ("7000", 99)])], []⟩
    ["2025-01"] "2025-01" (by simp)).2.1

/-! ### Debit/credit sign adjustment -/

/-- C8 counterexample: the dc value `"貸借"` contains the credit marker, so by
the claim the amount should become `-|100| = -100`, but the code's second
`if` (the debit test) also fires and forces the amount positive. -/
theorem adjustDC_claim_counterexample :
    adjustDC "貸借" (100 : ℚ) = 100 ∧ ¬ adjustDC "貸借" (100 : ℚ) = -100 := by
  have h : adjustDC "貸借" (100 : ℚ) = 100 := by
    simp only [adjustDC]
    rw [if_pos (Or.inr (by decide)), if_pos (Or.inr (by decide))]
    norm_num
  refine ⟨h, ?_⟩
  rw [h]
  norm_num

/-- C8 amended: when the upper-cased dc value denotes credit (exact `"C"` or
contains `貸`) and does not also denote debit, the amount becomes `−|amount|`;
when it denotes debit (exact `"D"` or contains `借`) the amount becomes
`+|amount|`, the debit test running second and winning on overlap; otherwise
the amount is unchanged. -/
theorem adjustDC_amended (dcRaw : String) (a : ℚ) :
    ((jsToUpper dcRaw = "C" ∨ jsContains (jsToUpper dcRaw) '貸') ∧
        ¬(jsToUpper dcRaw = "D" ∨ jsContains (jsToUpper dcRaw) '借') →
      adjustDC dcRaw a = -|a|) ∧
    ((jsToUpper dcRaw = "D" ∨ jsContains (jsToUpper dcRaw) '借') →
      adjustDC dcRaw a = |a|) ∧
    (¬(jsToUpper dcRaw = "C" ∨ jsContains (jsToUpper dcRaw) '貸') ∧
        ¬(jsToUpper dcRaw = "D" ∨ jsContains (jsToUpper dcRaw) '借') →
      adjustDC dcRaw a = a) := by
  refine ⟨fun h => ?_, fun h => ?_, fun h => ?_⟩
  · simp only [adjustDC]
    rw [if_neg h.2, if_pos h.1]
  · simp only [adjustDC]
    rw [if_pos h]
    by_cases hc : jsToUpper dcRaw = "C" ∨ jsContains (jsToUpper dcRaw) '貸'
    · rw [if_pos hc, abs_neg, abs_abs]
    · rw [if_neg hc]
  · simp only [adjustDC]
    rw [if_neg h.2, if_neg h.1]

/-- Witness for C8 amended: a lowercase `c` is a credit, `借方` a debit, and an
empty dc value keeps the parsed sign. -/
theorem adjustDC_amended_witness :
    adjustDC "c" (5 : ℚ) = -|(5 : ℚ)| ∧
    adjustDC "借方" (-7 : ℚ) = |(-7 : ℚ)| ∧
    adjustDC "" (-3 : ℚ) = -3 := by
  refine ⟨(adjustDC_amended "c" 5).1 ⟨by decide, by decide⟩,
    (adjustDC_amended "借方" (-7)).2.1 (by decide),
    (adjustDC_amended "" (-3)).2.2 ⟨by decide, by decide⟩⟩

/-! ### Monthly-PL conversion (modelled from the spec) -/

/-- Accumulator of the monthly-PL conversion. -/
structure ConvTotals where
  sales : ℚ
  cogs : ℚ
  sga : ℚ
  taxes : ℚ
  nonOperating : ℚ
  deriving DecidableEq

/-- Modelled from the spec: the per-account step of the monthly-PL conversion
of §4.5 is not present under src/ (only the finance utilities and the report
component that consume its output are), so it follows the spec's words,
parameterized by the cost/procurement and tax keyword tests on account names:
Revenue accounts add the absolute effective amount to sales; Expense accounts
add the signed amount to cogs if the name has a cost keyword, else to taxes if
it has a tax keyword, else to sga; Other accounts add the signed amount to
nonOperating. -/
def convStep (isCost isTax : String → Bool) (st : AppState) (m : String)
    (t : ConvTotals) (acc : Account) : ConvTotals :=
  let v := effectiveValue st m acc.code
  match acc.plCategory with
  | some PLCat.Revenue => { t with sales := t.sales + |v| }
  | some PLCat.Expense =>
    if isCost acc.name then { t with cogs := t.cogs + v }
    else if isTax acc.name then { t with taxes := t.taxes + v }
    else { t with sga := t.sga + v }
  | some PLCat.Other => { t with nonOperating := t.nonOperating + v }
  | none => t

/-- Modelled from the spec: the monthly-PL conversion walks the PL accounts
of one month, accumulating from zero. -/
def monthlyPLConversion (isCost isTax : String → Bool) (st : AppState) (m : String) :
    ConvTotals :=
  (st.accounts.filter (fun a => a.statement == StatementType.PL)).foldl
    (convStep isCost isTax st m) ⟨0, 0, 0, 0, 0⟩

theorem convStep_fold (isCost isTax : String → Bool) (st : AppState) (m : String)
    (l : List Account) (t : ConvTotals) :
    l.foldl (convStep isCost isTax st m) t
      = { sales := t.sales + ((l.filter (fun a => a.plCategory == some PLCat.Revenue)).map
            (fun a => |effectiveValue st m a.code|)).sum,
          cogs := t.cogs + ((l.filter (fun a => a.plCategory == some PLCat.Expense
              && isCost a.name)).map
            (fun a => effectiveValue st m a.code)).sum,
          sga := t.sga + ((l.filter (fun a => a.plCategory == some PLCat.Expense
              && !isCost a.name && !isTax a.name)).map
            (fun a => effectiveValue st m a.code)).sum,
          taxes := t.taxes + ((l.filter (fun a => a.plCategory == some PLCat.Expense
              && !isCost a.name && isTax a.name)).map
            (fun a => effectiveValue st m a.code)).sum,
          nonOperating := t.nonOperating
            + ((l.filter (fun a => a.plCategory == some PLCat.Other)).map
              (fun a => effectiveValue st m a.code)).sum } := by
  induction l generalizing t with
  | nil => simp
  | cons a rest ih =>
    rw [List.foldl_cons, ih]
    cases h : a.plCategory with
    | none => simp [convStep, h, List.filter_cons]
    | some cat =>
      cases cat
      · simp [convStep, h, List.filter_cons, add_assoc]
      · by_cases hcost : isCost a.name
        · simp [convStep, h, hcost, List.filter_cons, add_assoc]
        · by_cases htax : isTax a.name <;>
            simp [convStep, h, hcost, htax, List.filter_cons, add_assoc]
      · simp [convStep, h, List.filter_cons, add_assoc]

/-- C5: in the monthly-PL conversion, for every month: Revenue-classified PL
accounts contribute the absolute value of their effective amount to sales;
Expense-classified accounts contribute their effective amount to cogs when the
name has a cost/procurement keyword, to taxes when it has a tax keyword (and
no cost keyword, the chain testing cogs first), else to sga; Other-classified
accounts contribute their signed effective amount to nonOperating. -/
theorem monthlyPLConversion_contributions (isCost isTax : String → Bool)
    (st : AppState) (m : String) :
    (monthlyPLConversion isCost isTax st m).sales
      = (((st.accounts.filter (fun a => a.statement == StatementType.PL)).filter
            (fun a => a.plCategory == some PLCat.Revenue)).map
          (fun a => |effectiveValue st m a.code|)).sum ∧
    (monthlyPLConversion isCost isTax st m).cogs
      = (((st.accounts.filter (fun a => a.statement == StatementType.PL)).filter
            (fun a => a.plCategory == some PLCat.Expense && isCost a.name)).map
          (fun a => effectiveValue st m a.code)).sum ∧
    (monthlyPLConversion isCost isTax st m).taxes
      = (((st.accounts.filter (fun a => a.statement == StatementType.PL)).filter
            (fun a => a.plCategory == some PLCat.Expense
              && !isCost a.name && isTax a.name)).map
          (fun a => effectiveValue st m a.code)).sum ∧
    (monthlyPLConversion isCost isTax st m).sga
      = (((st.accounts.filter (fun a => a.statement == StatementType.PL)).filter
            (fun a => a.plCategory == some PLCat.Expense
              && !isCost a.name && !isTax a.name)).map
          (fun a => effectiveValue st m a.code)).sum ∧
    (monthlyPLConversion isCost isTax st m).nonOperating
      = (((st.accounts.filter (fun a => a.statement == StatementType.PL)).filter
            (fun a => a.plCategory == some PLCat.Other)).map
          (fun a => effectiveValue st m a.code)).sum := by
  simp only [monthlyPLConversion]
  rw [convStep_fold]
  refine ⟨by simp, by simp, by simp, by simp, by simp⟩

/-! ## Month normalization (`normalizeMonth` in page.tsx)

`normalizeMonth` trims the input and calls `dayjs(t, [formats], true)`.
page.tsx imports only `dayjs` and `dayjs/locale/ja`; the `customParseFormat`
plugin is never imported or registered anywhere in the repository, so the
format array and the strict flag are ignored (the array, being an object,
becomes the config object) and core dayjs parsing applies. For a string not
ending in `Z`/`z`, the core matches the anchored pattern REGEX_PARSE: four
year digits; an optional dash-or-slash separator; an optional 1-2 digit
month group; another optional dash-or-slash separator; a 0-2 digit day
group; any run of `T`/`t`/whitespace; then optional 1-2 digit hour, minute
and second groups with optional `:` separators; an optional `.` or `:`; and
an optional trailing digit group. On a match, it builds `new Date(d1, (d2-1)||0, d3||1, d4||0, d5||0, d6||0,
ms)` where `ms` is the first three characters of the last group — a trailing
`.digits` is therefore milliseconds, not a month — with out-of-range fields
rolling over; on no match (or a trailing `Z`) it falls back to the host's
implementation-defined native `Date(string)` parser, modelled below by the
`nativeDate` parameter (the year-month of the native date when valid). A
valid parse is rendered with `format("YYYY-MM")` (`YYYY` zero-padded to 4,
`MM` to 2); otherwise the first `年` is replaced by `-`, the first `月`
deleted, and the parse retried; otherwise the trimmed input is returned. -/

def charVal (c : Char) : Nat := c.toNat - 48

def digitChar (n : Nat) : Char := Char.ofNat (48 + n)

def natDigitsGo : Nat → Nat → List Char
  | 0, _ => []
  | fuel + 1, n =>
    if n < 10 then [digitChar n] else natDigitsGo fuel (n / 10) ++ [digitChar (n % 10)]

/-- Decimal digits of a natural number. -/
def natDigits (n : Nat) : List Char := natDigitsGo (n + 1) n

/-- `YYYY` rendering: zero-padded four digits. -/
def render4 (y : Nat) : List Char :=
  if y < 10000 then
    [digitChar (y / 1000), digitChar (y / 100 % 10), digitChar (y / 10 % 10),
     digitChar (y % 10)]
  else natDigits y

/-- `MM` rendering: zero-padded two digits. -/
def render2 (n : Nat) : List Char :=
  if n < 100 then [digitChar (n / 10), digitChar (n % 10)] else natDigits n

def isLeap (y : Nat) : Bool := (y % 4 == 0 && y % 100 != 0) || y % 400 == 0

def daysInMonth (y m : Nat) : Nat :=
  if m = 2 then (if isLeap y then 29 else 28)
  else if m = 4 ∨ m = 6 ∨ m = 9 ∨ m = 11 then 30
  else 31

/-- `new Date(y, m-1, _)` month normalization: months outside 1..12 roll into
adjacent years (`m` here is 1-based; `m = 0` is the previous December). -/
def normYM (y m : Nat) : Nat × Nat :=
  if m = 0 then (y - 1, 12) else (y + (m - 1) / 12, (m - 1) % 12 + 1)

def prevYM (y m : Nat) : Nat × Nat :=
  if m = 1 then (y - 1, 12) else (y, m - 1)

/-- Day-of-month rollover; the parsed day is at most 99 and the time part
carries at most 4 further days, so fuel 4 always reaches a fixed point. -/
def rollDay : Nat → Nat → Nat → Nat → Nat × Nat × Nat
  | 0, y, m, d => (y, m, d)
  | fuel + 1, y, m, d =>
    if d ≤ daysInMonth y m then (y, m, d)
    else
      let p := normYM y (m + 1)
      rollDay fuel p.1 p.2 (d - daysInMonth y m)

/-- JavaScript `Date` normalization of (year, 1-based month, day);
day 0 borrows from the previous month. -/
def dateNorm (y m d : Nat) : Nat × Nat × Nat :=
  let p := normYM y m
  if d = 0 then
    let q := prevYM p.1 p.2
    (q.1, q.2, daysInMonth q.1 q.2)
  else rollDay 4 p.1 p.2 d

/-- First-occurrence replacement of a single character
(`t.replace("年", "-")`, `t.replace("月", "")`). -/
def replaceFirst (target : Char) (repl : List Char) : List Char → List Char
  | [] => []
  | c :: cs => if c = target then repl ++ cs else c :: replaceFirst target repl cs

def isWS (c : Char) : Bool :=
  c == ' ' || c == '\t' || c == '\n' || c == '\r' || c == '\x0b' || c == '\x0c'

/-- `String.prototype.trim`. -/
def trimChars (cs : List Char) : List Char :=
  ((cs.dropWhile isWS).reverse.dropWhile isWS).reverse

/-- The output rendering `m.format("YYYY-MM")`. -/
def canonicalYM (y m : Nat) : List Char := render4 y ++ '-' :: render2 m

/-! ### The core dayjs parse regexp -/

/-- One item of the fixed anchored pattern: a digit group with min/max count
(`hi = none` is unbounded) that is optional when `opt` (absent ⇒ the capture
is `none`), or a character class, optional (`star = false`) or repeated
(`star = true`). -/
inductive RItem
  | dig (lo : Nat) (hi : Option Nat) (opt : Bool)
  | cls (chars : List Char) (star : Bool)

/-- The captured groups, in pattern order. -/
abbrev Caps := List (Option (List Char))

def digitRunLen : List Char → Nat
  | c :: cs => if c.isDigit then digitRunLen cs + 1 else 0
  | [] => 0

def classRunLen (chars : List Char) : List Char → Nat
  | c :: cs => if chars.contains c then classRunLen chars cs + 1 else 0
  | [] => 0

/-- The candidate (capture, rest) splits of a digit group at the current
position, greedy (longest first); an optional group can also be absent. -/
def digitChoices (lo : Nat) (hi : Option Nat) (opt : Bool) (cs : List Char) :
    List (Option (List Char) × List Char) :=
  let run := digitRunLen cs
  let maxLen := match hi with
    | some h => min h run
    | none => run
  let lens := (List.range (maxLen + 1)).reverse.filter (fun l => decide (lo ≤ l))
  lens.map (fun l => (some (cs.take l), cs.drop l)) ++ (if opt then [(none, cs)] else [])

/-- The candidate rests of a character-class item, greedy. -/
def classChoices (chars : List Char) (star : Bool) (cs : List Char) : List (List Char) :=
  if star then (List.range (classRunLen chars cs + 1)).reverse.map (fun l => cs.drop l)
  else
    match cs with
    | [] => [[]]
    | c :: rest => if chars.contains c then [rest, c :: rest] else [c :: rest]

def tryChoices {α β : Type} (k : α → List Char → Option β) :
    List (α × List Char) → Option β
  | [] => none
  | (a, rest) :: more =>
    match k a rest with
    | some g => some g
    | none => tryChoices k more

/-- Backtracking matcher for the anchored pattern: items are matched left to
right, each quantifier greedily (longest first, as the host regex engine
does), and the whole input must be consumed. -/
def reMatchAux : List RItem → List Char → Caps → Option Caps
  | [], cs, acc => if cs = [] then some acc.reverse else none
  | RItem.dig lo hi opt :: its, cs, acc =>
    tryChoices (fun cap rest => reMatchAux its rest (cap :: acc))
      (digitChoices lo hi opt cs)
  | RItem.cls chars star :: its, cs, acc =>
    tryChoices (fun _ rest => reMatchAux its rest acc)
      ((classChoices chars star cs).map (fun rest => ((), rest)))

/-- dayjs `REGEX_PARSE` (the `\s` in `[Tt\s]*` is modelled by its ASCII
whitespace characters). -/
def reItems : List RItem :=
  [RItem.dig 4 (some 4) false,
   RItem.cls ['-', '/'] false,
   RItem.dig 1 (some 2) true,
   RItem.cls ['-', '/'] false,
   RItem.dig 0 (some 2) false,
   RItem.cls ['T', 't', ' ', '\t', '\n', '\r', '\x0b', '\x0c'] true,
   RItem.dig 1 (some 2) true,
   RItem.cls [':'] false,
   RItem.dig 1 (some 2) true,
   RItem.cls [':'] false,
   RItem.dig 1 (some 2) true,
   RItem.cls ['.', ':'] false,
   RItem.dig 1 none true]

def reGroups (cs : List Char) : Option Caps :=
  reMatchAux reItems cs []

def digitsToNat (ds : List Char) : Nat :=
  ds.foldl (fun acc c => acc * 10 + charVal c) 0

/-- `new Date(y, m-1, d, h, min, s, ms)` reduced to its (year, month):
month/day normalization followed by the whole days carried out of the
time-of-day part. -/
def dateNormFull (y m1 day extra : Nat) : Nat × Nat :=
  let b := dateNorm y m1 day
  let r := rollDay 4 b.1 b.2.1 (b.2.2 + extra)
  (r.1, r.2.1)

/-- `new Date(d[1], (d[2]-1)||0, d[3]||1, d[4]||0, d[5]||0, d[6]||0,
(d[7]||'0').substring(0,3))` from the seven captured groups, reduced to its
(year, month): two-digit years are shifted to 19xx by the `Date`
constructor, an absent or zero-length day group is day 1, absent time groups
are 0, the millisecond value is the first three characters of the last
group, and the whole days carried out of the time-of-day part follow the
month/day normalization. -/
def capsToYM : Caps → Option (Nat × Nat)
  | [some yds, mo, dayo, ho, mino, so, fro] =>
    some (dateNormFull
      (if digitsToNat yds < 100 then 1900 + digitsToNat yds else digitsToNat yds)
      (match mo with
        | some ds => digitsToNat ds
        | none => 1)
      (match dayo with
        | some ds => if ds = [] then 1 else digitsToNat ds
        | none => 1)
      ((((ho.map digitsToNat).getD 0 * 3600 + (mino.map digitsToNat).getD 0 * 60
          + (so.map digitsToNat).getD 0) * 1000
        + digitsToNat ((fro.getD []).take 3)) / 86400000))
  | _ => none

/-- Year-month of the core-regex parse of one string, when it matches. -/
def coreParseYM (cs : List Char) : Option (Nat × Nat) :=
  (reGroups cs).bind capsToYM

/-- `/Z$/i.test(date)`. -/
def endsWithZ : List Char → Bool
  | [] => false
  | [c] => c == 'Z' || c == 'z'
  | _ :: rest => endsWithZ rest

/-- One plugin-less dayjs parse, reduced to the (year, month) that
`format("YYYY-MM")` renders: a trailing `Z` goes to the native parser, else
the core regex, else the native parser. `nativeDate` models the
implementation-defined native `Date(string)` parser. -/
def dayjsCoreYM (nativeDate : List Char → Option (Nat × Nat)) (cs : List Char) :
    Option (Nat × Nat) :=
  if endsWithZ cs then nativeDate cs
  else
    match coreParseYM cs with
    | some p => some p
    | none => nativeDate cs

/-- `normalizeMonth` from page.tsx, over character lists. -/
def normalizeMonthL (nativeDate : List Char → Option (Nat × Nat))
    (cs : List Char) : List Char :=
  if cs = [] then []
  else
    match dayjsCoreYM nativeDate (trimChars cs) with
    | some p => canonicalYM p.1 p.2
    | none =>
      match dayjsCoreYM nativeDate
          (replaceFirst '月' [] (replaceFirst '年' ['-'] (trimChars cs))) with
      | some p => canonicalYM p.1 p.2
      | none => trimChars cs

/-- `normalizeMonth` from page.tsx. -/
def normalizeMonth (nativeDate : List Char → Option (Nat × Nat)) (v : String) : String :=
  String.mk (normalizeMonthL nativeDate v.data)

/-- A native `Date` parser accepting nothing; actual browsers reject all the
concrete inputs evaluated below, so it stands in for them there. -/
def nativeNone : List Char → Option (Nat × Nat) := fun _ => none

example : normalizeMonth nativeNone "2025-01" = "2025-01" := by decide
example : normalizeMonth nativeNone "2025/01" = "2025-01" := by decide
example : normalizeMonth nativeNone "2025-3" = "2025-03" := by decide
example : normalizeMonth nativeNone "2025/3" = "2025-03" := by decide
example : normalizeMonth nativeNone "2025.1" = "2025-01" := by decide
example : normalizeMonth nativeNone "2025.7" = "2025-01" := by decide
example : normalizeMonth nativeNone "2025.12" = "2025-01" := by decide
example : normalizeMonth nativeNone "2025-13" = "2026-01" := by decide
example : normalizeMonth nativeNone "2025-00" = "2024-12" := by decide
example : normalizeMonth nativeNone "2025-01-31" = "2025-01" := by decide
example : normalizeMonth nativeNone "2025/01/31" = "2025-01" := by decide
example : normalizeMonth nativeNone "2025-02-30" = "2025-03" := by decide
example : normalizeMonth nativeNone "2025年01月" = "2025-01" := by decide
example : normalizeMonth nativeNone "2025年1月" = "2025-01" := by decide
example : normalizeMonth nativeNone "2025" = "2025-01" := by decide
example : normalizeMonth nativeNone "202501" = "2025-01" := by decide
example : normalizeMonth nativeNone " 2025-01 " = "2025-01" := by decide
example : normalizeMonth nativeNone "2025-01T10:30" = "2025-01" := by decide
example : normalizeMonth nativeNone "2025-01-31 23:59:59.999" = "2025-01" := by decide
example : normalizeMonth nativeNone "hello" = "hello" := by decide
example : normalizeMonth nativeNone "2025-01Z" = "2025-01Z" := by decide
example : normalizeMonth nativeNone "" = "" := by decide

/-- C6 counterexample: with the plugin-less dayjs that page.tsx actually
loads, "2025.7" — the claim's `YYYY.M` form — parses via the core regex with
`7` as milliseconds, yielding January ("2025-01"), not the claimed canonical
month "2025-07"; and "2025-13" is not returned unchanged but rolls over to
"2026-01". Neither result consults the native parser (the core regex
matches), so `nativeNone` is immaterial here. -/
theorem normalizeMonth_claim_counterexample :
    normalizeMonth nativeNone "2025.7" = "2025-01" ∧
    ¬ normalizeMonth nativeNone "2025.7" = "2025-07" ∧
    normalizeMonth nativeNone "2025-13" = "2026-01" ∧
    ¬ normalizeMonth nativeNone "2025-13" = "2025-13" := by
  refine ⟨by decide, by decide, by decide, by decide⟩

/-! ### Digit and rendering lemmas -/

theorem digitChar_isDigit {n : Nat} (h : n < 10) : (digitChar n).isDigit = true := by
  interval_cases n <;> decide

theorem charVal_digitChar {n : Nat} (h : n < 10) : charVal (digitChar n) = n := by
  interval_cases n <;> decide

theorem isWS_digitChar {n : Nat} (h : n < 10) : isWS (digitChar n) = false := by
  interval_cases n <;> decide

theorem digitChar_ne_nen {n : Nat} (h : n < 10) : digitChar n ≠ '年' := by
  interval_cases n <;> decide

theorem digitChar_ne_getsu {n : Nat} (h : n < 10) : digitChar n ≠ '月' := by
  interval_cases n <;> decide

theorem digitChar_not_Zz {n : Nat} (h : n < 10) :
    ((digitChar n == 'Z') || (digitChar n == 'z')) = false := by
  interval_cases n <;> decide

theorem mem_render4 {c : Char} {y : Nat} (hy : y < 10000) (h : c ∈ render4 y) :
    ∃ n, n < 10 ∧ c = digitChar n := by
  rw [render4, if_pos hy] at h
  simp only [List.mem_cons, List.mem_singleton, List.not_mem_nil, or_false] at h
  rcases h with h | h | h | h
  · exact ⟨y / 1000, by omega, h⟩
  · exact ⟨y / 100 % 10, by omega, h⟩
  · exact ⟨y / 10 % 10, by omega, h⟩
  · exact ⟨y % 10, by omega, h⟩

theorem mem_render2 {c : Char} {n : Nat} (hn : n < 100) (h : c ∈ render2 n) :
    ∃ k, k < 10 ∧ c = digitChar k := by
  rw [render2, if_pos hn] at h
  simp only [List.mem_cons, List.mem_singleton, List.not_mem_nil, or_false] at h
  rcases h with h | h
  · exact ⟨n / 10, by omega, h⟩
  · exact ⟨n % 10, by omega, h⟩

theorem render4_length {y : Nat} (hy : y < 10000) : (render4 y).length = 4 := by
  rw [render4, if_pos hy]
  rfl

theorem render2_length {n : Nat} (hn : n < 100) : (render2 n).length = 2 := by
  rw [render2, if_pos hn]
  rfl

/-! ### Trim lemmas -/

theorem dropWhile_eq_self_of {α : Type} (p : α → Bool) (l : List α)
    (h : ∀ c ∈ l, p c = false) : l.dropWhile p = l := by
  cases l with
  | nil => rfl
  | cons a t => simp [List.dropWhile_cons, h a (by simp)]

theorem trimChars_eq_self {cs : List Char} (h : ∀ c ∈ cs, isWS c = false) :
    trimChars cs = cs := by
  unfold trimChars
  rw [dropWhile_eq_self_of _ _ h,
    dropWhile_eq_self_of _ _ (fun c hc => h c (List.mem_reverse.mp hc)),
    List.reverse_reverse]

theorem isWS_mem_render4 {c : Char} {y : Nat} (hy : y < 10000) (h : c ∈ render4 y) :
    isWS c = false := by
  obtain ⟨n, hn, rfl⟩ := mem_render4 hy h
  exact isWS_digitChar hn

theorem isWS_mem_render2 {c : Char} {n : Nat} (hn : n < 100) (h : c ∈ render2 n) :
    isWS c = false := by
  obtain ⟨k, hk, rfl⟩ := mem_render2 hn h
  exact isWS_digitChar hk

theorem isWS_form (y m : Nat) (hy : y < 10000) (hm : m < 100) {sep : Char}
    (hsep : isWS sep = false) {tail : List Char} (htail : ∀ c ∈ tail, isWS c = false) :
    ∀ c ∈ render4 y ++ sep :: (render2 m ++ tail), isWS c = false := by
  intro c hc
  rcases List.mem_append.mp hc with h | h
  · exact isWS_mem_render4 hy h
  · rcases List.mem_cons.mp h with rfl | h
    · exact hsep
    · rcases List.mem_append.mp h with h | h
      · exact isWS_mem_render2 hm h
      · exact htail c h

theorem isWS_form_end (y m : Nat) (hy : y < 10000) (hm : m < 100) {sep : Char}
    (hsep : isWS sep = false) :
    ∀ c ∈ render4 y ++ sep :: render2 m, isWS c = false := by
  have h := isWS_form y m hy hm hsep (fun c hc => absurd hc (List.not_mem_nil c))
  rwa [List.append_nil] at h

theorem isWS_form_one (y k : Nat) (hy : y < 10000) (hk : k < 10) {sep : Char}
    (hsep : isWS sep = false) :
    ∀ c ∈ render4 y ++ sep :: [digitChar k], isWS c = false := by
  intro c hc
  rcases List.mem_append.mp hc with h | h
  · exact isWS_mem_render4 hy h
  · rcases List.mem_cons.mp h with rfl | h
    · exact hsep
    · rcases List.mem_singleton.mp h with rfl
      exact isWS_digitChar hk

theorem render4_append_ne_nil (y : Nat) (hy : y < 10000) (rest : List Char) :
    render4 y ++ rest ≠ [] := by
  rw [render4, if_pos hy]
  simp

/-! ### replaceFirst lemmas -/

theorem replaceFirst_not_mem {target : Char} {repl : List Char} {xs : List Char}
    (h : ∀ c ∈ xs, c ≠ target) (ys : List Char) :
    replaceFirst target repl (xs ++ ys) = xs ++ replaceFirst target repl ys := by
  induction xs with
  | nil => rfl
  | cons a t ih =>
    simp only [List.cons_append, replaceFirst, if_neg (h a (by simp))]
    exact congrArg (fun l => a :: l) (ih (fun c hc => h c (by simp [hc])))

/-! ### Date-normalization lemmas -/

theorem daysInMonth_ge (y m : Nat) : 28 ≤ daysInMonth y m := by
  unfold daysInMonth
  split_ifs <;> norm_num

theorem daysInMonth_le (y m : Nat) : daysInMonth y m ≤ 31 := by
  unfold daysInMonth
  split_ifs <;> norm_num

theorem normYM_id {y m : Nat} (h1 : 1 ≤ m) (h2 : m ≤ 12) : normYM y m = (y, m) := by
  unfold normYM
  rw [if_neg (by omega)]
  have e1 : (m - 1) / 12 = 0 := by omega
  have e2 : (m - 1) % 12 + 1 = m := by omega
  rw [e1, e2, Nat.add_zero]

theorem rollDay_stop (fuel y m d : Nat) (h : d ≤ daysInMonth y m) :
    rollDay (fuel + 1) y m d = (y, m, d) := by
  simp [rollDay, h]

theorem dateNorm_id {y m d : Nat} (hm1 : 1 ≤ m) (hm2 : m ≤ 12) (hd1 : 1 ≤ d)
    (hd2 : d ≤ daysInMonth y m) : dateNorm y m d = (y, m, d) := by
  unfold dateNorm
  rw [normYM_id hm1 hm2, if_neg (by omega)]
  exact rollDay_stop 3 y m d hd2

theorem normYM_month_bounds (y m : Nat) : 1 ≤ (normYM y m).2 ∧ (normYM y m).2 ≤ 12 := by
  unfold normYM
  split_ifs with h
  · exact ⟨by norm_num, by norm_num⟩
  · constructor
    · simp
    · have : (m - 1) % 12 < 12 := by omega
      simp
      omega

theorem prevYM_month_bounds (y m : Nat) (h1 : 1 ≤ m) (h2 : m ≤ 12) :
    1 ≤ (prevYM y m).2 ∧ (prevYM y m).2 ≤ 12 := by
  unfold prevYM
  split_ifs with h
  · simp
  · simp
    omega

theorem rollDay_month_bounds (fuel y m d : Nat) (h1 : 1 ≤ m) (h2 : m ≤ 12) :
    1 ≤ (rollDay fuel y m d).2.1 ∧ (rollDay fuel y m d).2.1 ≤ 12 := by
  induction fuel generalizing y m d with
  | zero => exact ⟨h1, h2⟩
  | succ n ih =>
    simp only [rollDay]
    split_ifs with h
    · exact ⟨h1, h2⟩
    · exact ih (normYM y (m + 1)).1 (normYM y (m + 1)).2 (d - daysInMonth y m)
        (normYM_month_bounds y (m + 1)).1 (normYM_month_bounds y (m + 1)).2

theorem dateNorm_month_bounds (y m d : Nat) :
    1 ≤ (dateNorm y m d).2.1 ∧ (dateNorm y m d).2.1 ≤ 12 := by
  unfold dateNorm
  have hb := normYM_month_bounds y m
  split_ifs with h
  · exact prevYM_month_bounds (normYM y m).1 (normYM y m).2 hb.1 hb.2
  · exact rollDay_month_bounds 4 (normYM y m).1 (normYM y m).2 d hb.1 hb.2

theorem dateNormFull_month_bounds (y m d extra : Nat) :
    1 ≤ (dateNormFull y m d extra).2 ∧ (dateNormFull y m d extra).2 ≤ 12 := by
  unfold dateNormFull
  have hb := dateNorm_month_bounds y m d
  exact rollDay_month_bounds 4 (dateNorm y m d).1 (dateNorm y m d).2.1
    ((dateNorm y m d).2.2 + extra) hb.1 hb.2

theorem dateNormFull_valid {y m d : Nat} (hm1 : 1 ≤ m) (hm2 : m ≤ 12) (hd1 : 1 ≤ d)
    (hd2 : d ≤ daysInMonth y m) : dateNormFull y m d 0 = (y, m) := by
  unfold dateNormFull
  rw [dateNorm_id hm1 hm2 hd1 hd2]
  have h2 : rollDay 4 y m d = (y, m, d) := rollDay_stop 3 y m d hd2
  simp [h2]

theorem dateNormFull_day1 (y m : Nat) :
    dateNormFull y m 1 0 = ((normYM y m).1, (normYM y m).2) := by
  have hd : (1 : Nat) ≤ daysInMonth (normYM y m).1 (normYM y m).2 := by
    have := daysInMonth_ge (normYM y m).1 (normYM y m).2
    omega
  have e1 : dateNorm y m 1 = ((normYM y m).1, (normYM y m).2, 1) := by
    unfold dateNorm
    rw [if_neg one_ne_zero]
    exact rollDay_stop 3 (normYM y m).1 (normYM y m).2 1 hd
  unfold dateNormFull
  rw [e1]
  have e2 : rollDay 4 (normYM y m).1 (normYM y m).2 1
      = ((normYM y m).1, (normYM y m).2, 1) :=
    rollDay_stop 3 (normYM y m).1 (normYM y m).2 1 hd
  simp [e2]

/-! ### Digit-run and take/drop lemmas -/

theorem digitRunLen_cons_nondigit {c : Char} (h : c.isDigit = false) (cs : List Char) :
    digitRunLen (c :: cs) = 0 := by
  simp [digitRunLen, h]

theorem digitRunLen_render4 {y : Nat} (hy : y < 10000) (rest : List Char) :
    digitRunLen (render4 y ++ rest) = 4 + digitRunLen rest := by
  rw [render4, if_pos hy]
  simp [digitRunLen, digitChar_isDigit (show y / 1000 < 10 by omega),
    digitChar_isDigit (show y / 100 % 10 < 10 by omega),
    digitChar_isDigit (show y / 10 % 10 < 10 by omega),
    digitChar_isDigit (show y % 10 < 10 by omega)]
  omega

theorem digitRunLen_render2 {n : Nat} (hn : n < 100) (rest : List Char) :
    digitRunLen (render2 n ++ rest) = 2 + digitRunLen rest := by
  rw [render2, if_pos hn]
  simp [digitRunLen, digitChar_isDigit (show n / 10 < 10 by omega),
    digitChar_isDigit (show n % 10 < 10 by omega)]
  omega

theorem digitRunLen_digit_cons {k : Nat} (hk : k < 10) (rest : List Char) :
    digitRunLen (digitChar k :: rest) = 1 + digitRunLen rest := by
  simp [digitRunLen, digitChar_isDigit hk]
  omega

theorem classRunLen_cons_notmem {chars : List Char} {c : Char}
    (h : chars.contains c = false) (cs : List Char) :
    classRunLen chars (c :: cs) = 0 := by
  have h2 : c ∉ chars := by simpa using h
  simp [classRunLen, h2]

theorem take_render4 {y : Nat} (hy : y < 10000) (rest : List Char) :
    (render4 y ++ rest).take 4 = render4 y := by
  rw [← render4_length hy, List.take_left]

theorem drop_render4 {y : Nat} (hy : y < 10000) (rest : List Char) :
    (render4 y ++ rest).drop 4 = rest := by
  rw [← render4_length hy, List.drop_left]

theorem take_render2 {n : Nat} (hn : n < 100) (rest : List Char) :
    (render2 n ++ rest).take 2 = render2 n := by
  rw [← render2_length hn, List.take_left]

theorem drop_render2 {n : Nat} (hn : n < 100) (rest : List Char) :
    (render2 n ++ rest).drop 2 = rest := by
  rw [← render2_length hn, List.drop_left]

/-! ### Choice-list computations -/

theorem digitChoices_y4 {y : Nat} (hy : y < 10000) (rest : List Char) :
    digitChoices 4 (some 4) false (render4 y ++ rest) = [(some (render4 y), rest)] := by
  simp only [digitChoices, digitRunLen_render4 hy]
  have hmin : min 4 (4 + digitRunLen rest) = 4 := by omega
  rw [hmin]
  have hlens : (List.range (4 + 1)).reverse.filter (fun l => decide (4 ≤ l)) = [4] := by
    decide
  rw [hlens]
  simp [take_render4 hy, drop_render4 hy]

theorem digitChoices_m2_head {n : Nat} (hn : n < 100) (rest : List Char) :
    ∃ tl, digitChoices 1 (some 2) true (render2 n ++ rest)
      = (some (render2 n), rest) :: tl := by
  simp only [digitChoices, digitRunLen_render2 hn]
  have hmin : min 2 (2 + digitRunLen rest) = 2 := by omega
  rw [hmin]
  have hlens : (List.range (2 + 1)).reverse.filter (fun l => decide (1 ≤ l)) = [2, 1] := by
    decide
  rw [hlens]
  refine ⟨[(some ((render2 n ++ rest).take 1), (render2 n ++ rest).drop 1),
    (none, render2 n ++ rest)], ?_⟩
  simp [take_render2 hn, drop_render2 hn]

theorem digitChoices_day2_head {n : Nat} (hn : n < 100) (rest : List Char) :
    ∃ tl, digitChoices 0 (some 2) false (render2 n ++ rest)
      = (some (render2 n), rest) :: tl := by
  simp only [digitChoices, digitRunLen_render2 hn]
  have hmin : min 2 (2 + digitRunLen rest) = 2 := by omega
  rw [hmin]
  have hlens : (List.range (2 + 1)).reverse.filter (fun l => decide (0 ≤ l))
      = [2, 1, 0] := by decide
  rw [hlens]
  refine ⟨[(some ((render2 n ++ rest).take 1), (render2 n ++ rest).drop 1),
    (some ((render2 n ++ rest).take 0), (render2 n ++ rest).drop 0)], ?_⟩
  simp [take_render2 hn, drop_render2 hn]

theorem digitChoices_one {k : Nat} (hk : k < 10) {rest : List Char}
    (hr : digitRunLen rest = 0) :
    digitChoices 1 (some 2) true (digitChar k :: rest)
      = [(some [digitChar k], rest), (none, digitChar k :: rest)] := by
  simp only [digitChoices, digitRunLen_digit_cons hk, hr]
  have hmin : min 2 (1 + 0) = 1 := by norm_num
  rw [hmin]
  have hlens : (List.range (1 + 1)).reverse.filter (fun l => decide (1 ≤ l)) = [1] := by
    decide
  rw [hlens]
  simp

theorem digitChoices_frac2_head {n : Nat} (hn : n < 100) :
    ∃ tl, digitChoices 1 none true (render2 n) = (some (render2 n), []) :: tl := by
  have hrun : digitRunLen (render2 n) = 2 := by
    have h := digitRunLen_render2 hn []
    rwa [List.append_nil] at h
  simp only [digitChoices, hrun]
  have hlens : (List.range (2 + 1)).reverse.filter (fun l => decide (1 ≤ l)) = [2, 1] := by
    decide
  rw [hlens]
  refine ⟨[(some ((render2 n).take 1), (render2 n).drop 1), (none, render2 n)], ?_⟩
  have ht : (render2 n).take 2 = render2 n := by
    rw [← render2_length hn]
    exact List.take_length _
  have hd : (render2 n).drop 2 = [] := by
    rw [← render2_length hn]
    exact List.drop_length _
  simp [ht, hd]

theorem digitChoices_frac1 {k : Nat} (hk : k < 10) :
    digitChoices 1 none true [digitChar k]
      = [(some [digitChar k], []), (none, [digitChar k])] := by
  have hrun : digitRunLen [digitChar k] = 1 := by
    have h := digitRunLen_digit_cons hk []
    simpa using h
  simp only [digitChoices, hrun]
  have hlens : (List.range (1 + 1)).reverse.filter (fun l => decide (1 ≤ l)) = [1] := by
    decide
  rw [hlens]
  simp

theorem digitChoices_absent {hi : Option Nat} {cs : List Char} (h : digitRunLen cs = 0) :
    digitChoices 1 hi true cs = [(none, cs)] := by
  simp only [digitChoices, h]
  cases hi with
  | none => simp
  | some h2 => simp

theorem digitChoices_empty {cs : List Char} (h : digitRunLen cs = 0) :
    digitChoices 0 (some 2) false cs = [(some [], cs)] := by
  simp only [digitChoices, h]
  have h1 : List.range 1 = [0] := rfl
  simp [h1]

theorem classChoices_nil (chars : List Char) : classChoices chars false [] = [[]] := rfl

theorem classChoices_skip {chars : List Char} {c : Char} (h : chars.contains c = false)
    (rest : List Char) : classChoices chars false (c :: rest) = [c :: rest] := by
  have h2 : c ∉ chars := by simpa using h
  simp [classChoices, h2]

theorem classChoices_eat {chars : List Char} {c : Char} (h : chars.contains c = true)
    (rest : List Char) : classChoices chars false (c :: rest) = [rest, c :: rest] := by
  have h2 : c ∈ chars := by simpa using h
  simp [classChoices, h2]

theorem classChoices_star0 {chars : List Char} {cs : List Char}
    (h : classRunLen chars cs = 0) : classChoices chars true cs = [cs] := by
  have h1 : List.range 1 = [0] := rfl
  simp [classChoices, h, h1]

/-! ### tryChoices lemmas -/

theorem tryChoices_single {α β : Type} (k : α → List Char → Option β) (a : α)
    (r : List Char) : tryChoices k [(a, r)] = k a r := by
  cases h : k a r <;> simp [tryChoices, h]

theorem tryChoices_first {α β : Type} {k : α → List Char → Option β} {a : α}
    {r : List Char} {g : β} (h : k a r = some g) (more : List (α × List Char)) :
    tryChoices k ((a, r) :: more) = some g := by
  simp [tryChoices, h]

/-! ### Single-step evaluation of the matcher -/

theorem step_y4 {its : List RItem} {y : Nat} {rest : List Char} {acc : Caps}
    (hy : y < 10000) :
    reMatchAux (RItem.dig 4 (some 4) false :: its) (render4 y ++ rest) acc
      = reMatchAux its rest (some (render4 y) :: acc) := by
  show tryChoices _ (digitChoices 4 (some 4) false (render4 y ++ rest)) = _
  rw [digitChoices_y4 hy, tryChoices_single]

theorem step_cls_skip {chars : List Char} {its : List RItem} {c : Char}
    {rest : List Char} {acc : Caps} (h : chars.contains c = false) :
    reMatchAux (RItem.cls chars false :: its) (c :: rest) acc
      = reMatchAux its (c :: rest) acc := by
  show tryChoices _ ((classChoices chars false (c :: rest)).map _) = _
  rw [classChoices_skip h, List.map_cons, List.map_nil, tryChoices_single]

theorem step_cls_nil {chars : List Char} {its : List RItem} {acc : Caps} :
    reMatchAux (RItem.cls chars false :: its) [] acc = reMatchAux its [] acc := by
  show tryChoices _ ((classChoices chars false []).map _) = _
  rw [classChoices_nil, List.map_cons, List.map_nil, tryChoices_single]

theorem step_cls_eat {chars : List Char} {its : List RItem} {c : Char}
    {rest : List Char} {acc : Caps} {g : Caps} (h : chars.contains c = true)
    (hs : reMatchAux its rest acc = some g) :
    reMatchAux (RItem.cls chars false :: its) (c :: rest) acc = some g := by
  show tryChoices _ ((classChoices chars false (c :: rest)).map _) = _
  rw [classChoices_eat h, List.map_cons]
  exact tryChoices_first hs _

theorem step_star0 {chars : List Char} {its : List RItem} {cs : List Char} {acc : Caps}
    (h : classRunLen chars cs = 0) :
    reMatchAux (RItem.cls chars true :: its) cs acc = reMatchAux its cs acc := by
  show tryChoices _ ((classChoices chars true cs).map _) = _
  rw [classChoices_star0 h, List.map_cons, List.map_nil, tryChoices_single]

theorem step_dig_absent {hi : Option Nat} {its : List RItem} {cs : List Char} {acc : Caps}
    (h : digitRunLen cs = 0) :
    reMatchAux (RItem.dig 1 hi true :: its) cs acc = reMatchAux its cs (none :: acc) := by
  show tryChoices _ (digitChoices 1 hi true cs) = _
  rw [digitChoices_absent h, tryChoices_single]

theorem step_dig_empty {its : List RItem} {cs : List Char} {acc : Caps}
    (h : digitRunLen cs = 0) :
    reMatchAux (RItem.dig 0 (some 2) false :: its) cs acc
      = reMatchAux its cs (some [] :: acc) := by
  show tryChoices _ (digitChoices 0 (some 2) false cs) = _
  rw [digitChoices_empty h, tryChoices_single]

theorem step_m2 {its : List RItem} {n : Nat} {rest : List Char} {acc : Caps} {g : Caps}
    (hn : n < 100) (hs : reMatchAux its rest (some (render2 n) :: acc) = some g) :
    reMatchAux (RItem.dig 1 (some 2) true :: its) (render2 n ++ rest) acc = some g := by
  show tryChoices _ (digitChoices 1 (some 2) true (render2 n ++ rest)) = _
  obtain ⟨tl, htl⟩ := digitChoices_m2_head hn rest
  rw [htl]
  exact tryChoices_first hs tl

theorem step_m2_end {its : List RItem} {n : Nat} {acc : Caps} {g : Caps} (hn : n < 100)
    (hs : reMatchAux its [] (some (render2 n) :: acc) = some g) :
    reMatchAux (RItem.dig 1 (some 2) true :: its) (render2 n) acc = some g := by
  have h2 := step_m2 hn hs
  rwa [List.append_nil] at h2

theorem step_day2 {its : List RItem} {n : Nat} {rest : List Char} {acc : Caps} {g : Caps}
    (hn : n < 100) (hs : reMatchAux its rest (some (render2 n) :: acc) = some g) :
    reMatchAux (RItem.dig 0 (some 2) false :: its) (render2 n ++ rest) acc = some g := by
  show tryChoices _ (digitChoices 0 (some 2) false (render2 n ++ rest)) = _
  obtain ⟨tl, htl⟩ := digitChoices_day2_head hn rest
  rw [htl]
  exact tryChoices_first hs tl

theorem step_day2_end {its : List RItem} {n : Nat} {acc : Caps} {g : Caps} (hn : n < 100)
    (hs : reMatchAux its [] (some (render2 n) :: acc) = some g) :
    reMatchAux (RItem.dig 0 (some 2) false :: its) (render2 n) acc = some g := by
  have h2 := step_day2 hn hs
  rwa [List.append_nil] at h2

theorem step_m1 {its : List RItem} {k : Nat} {rest : List Char} {acc : Caps} {g : Caps}
    (hk : k < 10) (hr : digitRunLen rest = 0)
    (hs : reMatchAux its rest (some [digitChar k] :: acc) = some g) :
    reMatchAux (RItem.dig 1 (some 2) true :: its) (digitChar k :: rest) acc = some g := by
  show tryChoices _ (digitChoices 1 (some 2) true (digitChar k :: rest)) = _
  rw [digitChoices_one hk hr]
  exact tryChoices_first hs _

theorem step_frac2 {its : List RItem} {n : Nat} {acc : Caps} {g : Caps} (hn : n < 100)
    (hs : reMatchAux its [] (some (render2 n) :: acc) = some g) :
    reMatchAux (RItem.dig 1 none true :: its) (render2 n) acc = some g := by
  show tryChoices _ (digitChoices 1 none true (render2 n)) = _
  obtain ⟨tl, htl⟩ := digitChoices_frac2_head hn
  rw [htl]
  exact tryChoices_first hs tl

theorem step_frac1 {its : List RItem} {k : Nat} {acc : Caps} {g : Caps} (hk : k < 10)
    (hs : reMatchAux its [] (some [digitChar k] :: acc) = some g) :
    reMatchAux (RItem.dig 1 none true :: its) [digitChar k] acc = some g := by
  show tryChoices _ (digitChoices 1 none true [digitChar k]) = _
  rw [digitChoices_frac1 hk]
  exact tryChoices_first hs _

theorem step_end {acc : Caps} : reMatchAux [] [] acc = some acc.reverse := rfl

theorem step_end_fail {cs : List Char} {acc : Caps} (h : cs ≠ []) :
    reMatchAux [] cs acc = none := by
  show (if cs = [] then some acc.reverse else none) = none
  rw [if_neg h]

/-! ### The captured groups of each accepted input form -/

theorem reGroups_sep2 {y m : Nat} {sep : Char} (hy : y < 10000) (hm : m < 100)
    (hsep : (['-', '/'] : List Char).contains sep = true) :
    reGroups (render4 y ++ sep :: render2 m)
      = some [some (render4 y), some (render2 m), some [], none, none, none, none] := by
  simp only [reGroups, reItems]
  rw [step_y4 hy]
  exact step_cls_eat hsep (step_m2_end hm rfl)

theorem reGroups_sep1 {y k : Nat} {sep : Char} (hy : y < 10000) (hk : k < 10)
    (hsep : (['-', '/'] : List Char).contains sep = true) :
    reGroups (render4 y ++ sep :: [digitChar k])
      = some [some (render4 y), some [digitChar k], some [], none, none, none, none] := by
  simp only [reGroups, reItems]
  rw [step_y4 hy]
  exact step_cls_eat hsep (step_m1 hk rfl rfl)

theorem reGroups_ymd {y m d : Nat} {s1 s2 : Char} (hy : y < 10000) (hm : m < 100)
    (hd : d < 100) (hs1 : (['-', '/'] : List Char).contains s1 = true)
    (hs2 : (['-', '/'] : List Char).contains s2 = true) :
    reGroups (render4 y ++ s1 :: (render2 m ++ s2 :: render2 d))
      = some [some (render4 y), some (render2 m), some (render2 d),
          none, none, none, none] := by
  simp only [reGroups, reItems]
  rw [step_y4 hy]
  exact step_cls_eat hs1 (step_m2 hm (step_cls_eat hs2 (step_day2_end hd rfl)))

theorem reGroups_dot2 {y m : Nat} (hy : y < 10000) (hm : m < 100) :
    reGroups (render4 y ++ '.' :: render2 m)
      = some [some (render4 y), none, some [], none, none, none,
          some (render2 m)] := by
  have hdr : digitRunLen ('.' :: render2 m) = 0 :=
    digitRunLen_cons_nondigit (by decide) _
  have hcr : classRunLen ['T', 't', ' ', '\t', '\n', '\r', '\x0b', '\x0c']
      ('.' :: render2 m) = 0 := classRunLen_cons_notmem (by decide) _
  simp only [reGroups, reItems]
  rw [step_y4 hy, step_cls_skip (by decide), step_dig_absent hdr,
    step_cls_skip (by decide), step_dig_empty hdr, step_star0 hcr,
    step_dig_absent hdr, step_cls_skip (by decide), step_dig_absent hdr,
    step_cls_skip (by decide), step_dig_absent hdr]
  exact step_cls_eat (by decide) (step_frac2 hm rfl)

theorem reGroups_dot1 {y k : Nat} (hy : y < 10000) (hk : k < 10) :
    reGroups (render4 y ++ '.' :: [digitChar k])
      = some [some (render4 y), none, some [], none, none, none,
          some [digitChar k]] := by
  have hdr : digitRunLen ('.' :: [digitChar k]) = 0 :=
    digitRunLen_cons_nondigit (by decide) _
  have hcr : classRunLen ['T', 't', ' ', '\t', '\n', '\r', '\x0b', '\x0c']
      ('.' :: [digitChar k]) = 0 := classRunLen_cons_notmem (by decide) _
  simp only [reGroups, reItems]
  rw [step_y4 hy, step_cls_skip (by decide), step_dig_absent hdr,
    step_cls_skip (by decide), step_dig_empty hdr, step_star0 hcr,
    step_dig_absent hdr, step_cls_skip (by decide), step_dig_absent hdr,
    step_cls_skip (by decide), step_dig_absent hdr]
  exact step_cls_eat (by decide) (step_frac1 hk rfl)

theorem reGroups_nengetsu {y m : Nat} (hy : y < 10000) :
    reGroups (render4 y ++ '年' :: (render2 m ++ ['月'])) = none := by
  have hdr : digitRunLen ('年' :: (render2 m ++ ['月'])) = 0 :=
    digitRunLen_cons_nondigit (by decide) _
  have hcr : classRunLen ['T', 't', ' ', '\t', '\n', '\r', '\x0b', '\x0c']
      ('年' :: (render2 m ++ ['月'])) = 0 := classRunLen_cons_notmem (by decide) _
  simp only [reGroups, reItems]
  rw [step_y4 hy, step_cls_skip (by decide), step_dig_absent hdr,
    step_cls_skip (by decide), step_dig_empty hdr, step_star0 hcr,
    step_dig_absent hdr, step_cls_skip (by decide), step_dig_absent hdr,
    step_cls_skip (by decide), step_dig_absent hdr,
    step_cls_skip (by decide), step_dig_absent hdr]
  exact step_end_fail (List.cons_ne_nil _ _)

/-! ### Numeric value of the rendered digit groups -/

theorem digitsToNat_render4 {y : Nat} (hy : y < 10000) : digitsToNat (render4 y) = y := by
  rw [render4, if_pos hy]
  simp [digitsToNat, charVal_digitChar (show y / 1000 < 10 by omega),
    charVal_digitChar (show y / 100 % 10 < 10 by omega),
    charVal_digitChar (show y / 10 % 10 < 10 by omega),
    charVal_digitChar (show y % 10 < 10 by omega)]
  omega

theorem digitsToNat_render2 {n : Nat} (hn : n < 100) : digitsToNat (render2 n) = n := by
  rw [render2, if_pos hn]
  simp [digitsToNat, charVal_digitChar (show n / 10 < 10 by omega),
    charVal_digitChar (show n % 10 < 10 by omega)]
  omega

theorem digitsToNat_one {k : Nat} (hk : k < 10) : digitsToNat [digitChar k] = k := by
  simp [digitsToNat, charVal_digitChar hk]

/-! ### From captured groups to the year-month -/

theorem digitsToNat_nil : digitsToNat [] = 0 := rfl

theorem capsToYM_sep2 {y m : Nat} (hy1 : 100 ≤ y) (hy2 : y < 10000) (hm : m < 100) :
    capsToYM [some (render4 y), some (render2 m), some [], none, none, none, none]
      = some (dateNormFull y m 1 0) := by
  have hylt : ¬ y < 100 := by omega
  simp [capsToYM, digitsToNat_render4 hy2, digitsToNat_render2 hm, hylt,
    digitsToNat_nil]

theorem capsToYM_sep1 {y k : Nat} (hy1 : 100 ≤ y) (hy2 : y < 10000) (hk : k < 10) :
    capsToYM [some (render4 y), some [digitChar k], some [], none, none, none, none]
      = some (dateNormFull y k 1 0) := by
  have hylt : ¬ y < 100 := by omega
  simp [capsToYM, digitsToNat_render4 hy2, digitsToNat_one hk, hylt, digitsToNat_nil]

theorem capsToYM_ymd {y m d : Nat} (hy1 : 100 ≤ y) (hy2 : y < 10000) (hm : m < 100)
    (hd : d < 100) :
    capsToYM [some (render4 y), some (render2 m), some (render2 d),
        none, none, none, none]
      = some (dateNormFull y m d 0) := by
  have hylt : ¬ y < 100 := by omega
  have hdne : render2 d ≠ [] := by
    intro h
    have hl := render2_length hd
    rw [h] at hl
    simp at hl
  simp [capsToYM, digitsToNat_render4 hy2, digitsToNat_render2 hm,
    digitsToNat_render2 hd, hylt, hdne, digitsToNat_nil]

theorem capsToYM_dot2 {y m : Nat} (hy1 : 100 ≤ y) (hy2 : y < 10000) (hm : m < 100) :
    capsToYM [some (render4 y), none, some [], none, none, none, some (render2 m)]
      = some (dateNormFull y 1 1 0) := by
  have hylt : ¬ y < 100 := by omega
  have htake : (render2 m).take 3 = render2 m :=
    List.take_of_length_le (by rw [render2_length hm]; omega)
  have hdiv : m / 86400000 = 0 := Nat.div_eq_of_lt (by omega)
  simp [capsToYM, digitsToNat_render4 hy2, hylt, htake, digitsToNat_render2 hm, hdiv]

theorem capsToYM_dot1 {y k : Nat} (hy1 : 100 ≤ y) (hy2 : y < 10000) (hk : k < 10) :
    capsToYM [some (render4 y), none, some [], none, none, none, some [digitChar k]]
      = some (dateNormFull y 1 1 0) := by
  have hylt : ¬ y < 100 := by omega
  have htake : ([digitChar k] : List Char).take 3 = [digitChar k] := rfl
  have hdiv : k / 86400000 = 0 := Nat.div_eq_of_lt (by omega)
  simp [capsToYM, digitsToNat_render4 hy2, hylt, htake, digitsToNat_one hk, hdiv]

/-! ### Core parse of each accepted form -/

theorem coreParseYM_sep2 {y m : Nat} {sep : Char} (hy1 : 100 ≤ y) (hy2 : y < 10000)
    (hm : m < 100) (hsep : (['-', '/'] : List Char).contains sep = true) :
    coreParseYM (render4 y ++ sep :: render2 m) = some (dateNormFull y m 1 0) := by
  rw [coreParseYM, reGroups_sep2 hy2 hm hsep]
  exact capsToYM_sep2 hy1 hy2 hm

theorem coreParseYM_sep1 {y k : Nat} {sep : Char} (hy1 : 100 ≤ y) (hy2 : y < 10000)
    (hk : k < 10) (hsep : (['-', '/'] : List Char).contains sep = true) :
    coreParseYM (render4 y ++ sep :: [digitChar k]) = some (dateNormFull y k 1 0) := by
  rw [coreParseYM, reGroups_sep1 hy2 hk hsep]
  exact capsToYM_sep1 hy1 hy2 hk

theorem coreParseYM_ymd {y m d : Nat} {s1 s2 : Char} (hy1 : 100 ≤ y) (hy2 : y < 10000)
    (hm : m < 100) (hd : d < 100) (hs1 : (['-', '/'] : List Char).contains s1 = true)
    (hs2 : (['-', '/'] : List Char).contains s2 = true) :
    coreParseYM (render4 y ++ s1 :: (render2 m ++ s2 :: render2 d))
      = some (dateNormFull y m d 0) := by
  rw [coreParseYM, reGroups_ymd hy2 hm hd hs1 hs2]
  exact capsToYM_ymd hy1 hy2 hm hd

theorem coreParseYM_dot2 {y m : Nat} (hy1 : 100 ≤ y) (hy2 : y < 10000) (hm : m < 100) :
    coreParseYM (render4 y ++ '.' :: render2 m) = some (dateNormFull y 1 1 0) := by
  rw [coreParseYM, reGroups_dot2 hy2 hm]
  exact capsToYM_dot2 hy1 hy2 hm

theorem coreParseYM_dot1 {y k : Nat} (hy1 : 100 ≤ y) (hy2 : y < 10000) (hk : k < 10) :
    coreParseYM (render4 y ++ '.' :: [digitChar k]) = some (dateNormFull y 1 1 0) := by
  rw [coreParseYM, reGroups_dot1 hy2 hk]
  exact capsToYM_dot1 hy1 hy2 hk

theorem coreParseYM_nengetsu {y m : Nat} (hy : y < 10000) :
    coreParseYM (render4 y ++ '年' :: (render2 m ++ ['月'])) = none := by
  rw [coreParseYM, reGroups_nengetsu hy]
  rfl

/-! ### The trailing-Z test on the accepted forms -/

theorem endsWithZ_all_not {cs : List Char}
    (h : ∀ c ∈ cs, ((c == 'Z') || (c == 'z')) = false) : endsWithZ cs = false :=
  match cs with
  | [] => rfl
  | [a] => h a (by simp)
  | _ :: b :: tl =>
    have ih : endsWithZ (b :: tl) = false :=
      endsWithZ_all_not (fun c hc => h c (List.mem_cons_of_mem _ hc))
    ih

theorem not_Zz_mem_render4 {c : Char} {y : Nat} (hy : y < 10000) (h : c ∈ render4 y) :
    ((c == 'Z') || (c == 'z')) = false := by
  obtain ⟨n, hn, rfl⟩ := mem_render4 hy h
  exact digitChar_not_Zz hn

theorem not_Zz_mem_render2 {c : Char} {n : Nat} (hn : n < 100) (h : c ∈ render2 n) :
    ((c == 'Z') || (c == 'z')) = false := by
  obtain ⟨k, hk, rfl⟩ := mem_render2 hn h
  exact digitChar_not_Zz hk

theorem not_Zz_form (y m : Nat) (hy : y < 10000) (hm : m < 100) {sep : Char}
    (hsep : ((sep == 'Z') || (sep == 'z')) = false) {tail : List Char}
    (htail : ∀ c ∈ tail, ((c == 'Z') || (c == 'z')) = false) :
    ∀ c ∈ render4 y ++ sep :: (render2 m ++ tail),
      ((c == 'Z') || (c == 'z')) = false := by
  intro c hc
  rcases List.mem_append.mp hc with h | h
  · exact not_Zz_mem_render4 hy h
  · rcases List.mem_cons.mp h with rfl | h
    · exact hsep
    · rcases List.mem_append.mp h with h | h
      · exact not_Zz_mem_render2 hm h
      · exact htail c h

theorem not_Zz_form_end (y m : Nat) (hy : y < 10000) (hm : m < 100) {sep : Char}
    (hsep : ((sep == 'Z') || (sep == 'z')) = false) :
    ∀ c ∈ render4 y ++ sep :: render2 m, ((c == 'Z') || (c == 'z')) = false := by
  have h := not_Zz_form y m hy hm hsep
    (fun c hc => absurd hc (List.not_mem_nil c))
  rwa [List.append_nil] at h

theorem not_Zz_form_one (y k : Nat) (hy : y < 10000) (hk : k < 10) {sep : Char}
    (hsep : ((sep == 'Z') || (sep == 'z')) = false) :
    ∀ c ∈ render4 y ++ sep :: [digitChar k], ((c == 'Z') || (c == 'z')) = false := by
  intro c hc
  rcases List.mem_append.mp hc with h | h
  · exact not_Zz_mem_render4 hy h
  · rcases List.mem_cons.mp h with rfl | h
    · exact hsep
    · rcases List.mem_singleton.mp h with rfl
      exact digitChar_not_Zz hk

theorem isWS_nengetsu1 (y k : Nat) (hy : y < 10000) (hk : k < 10) :
    ∀ c ∈ render4 y ++ '年' :: ([digitChar k] ++ ['月']), isWS c = false := by
  intro c hc
  rcases List.mem_append.mp hc with h | h
  · exact isWS_mem_render4 hy h
  · rcases List.mem_cons.mp h with rfl | h
    · decide
    · rcases List.mem_append.mp h with h | h
      · rcases List.mem_singleton.mp h with rfl
        exact isWS_digitChar hk
      · rcases List.mem_singleton.mp h with rfl
        decide

theorem sep_cases {sep : Char} (h : (['-', '/'] : List Char).contains sep = true) :
    sep = '-' ∨ sep = '/' := by
  have h2 : sep ∈ (['-', '/'] : List Char) := by simpa using h
  simpa using h2

/-! ### The full plugin-less dayjs parse -/

theorem dayjsCoreYM_of_core {nativeDate : List Char → Option (Nat × Nat)}
    {cs : List Char} {p : Nat × Nat} (hz : endsWithZ cs = false)
    (hc : coreParseYM cs = some p) : dayjsCoreYM nativeDate cs = some p := by
  unfold dayjsCoreYM
  rw [if_neg (by rw [hz]; exact Bool.false_ne_true), hc]

theorem dayjsCoreYM_none {nativeDate : List Char → Option (Nat × Nat)}
    {cs : List Char} (hc : coreParseYM cs = none) :
    dayjsCoreYM nativeDate cs = nativeDate cs := by
  unfold dayjsCoreYM
  by_cases hz : endsWithZ cs = true
  · rw [if_pos hz]
  · rw [if_neg hz, hc]

/-! ### The 年月 replacement -/

theorem replace_nengetsu2 {y m : Nat} (hy : y < 10000) (hm : m < 100) :
    replaceFirst '月' [] (replaceFirst '年' ['-']
        (render4 y ++ '年' :: (render2 m ++ ['月'])))
      = render4 y ++ '-' :: render2 m := by
  have h1 : ∀ c ∈ render4 y, c ≠ '年' := by
    intro c hc
    obtain ⟨n, hn, rfl⟩ := mem_render4 hy hc
    exact digitChar_ne_nen hn
  rw [replaceFirst_not_mem h1]
  have h2 : replaceFirst '年' ['-'] ('年' :: (render2 m ++ ['月']))
      = '-' :: (render2 m ++ ['月']) := by
    simp [replaceFirst]
  rw [h2]
  have h3 : render4 y ++ '-' :: (render2 m ++ ['月'])
      = (render4 y ++ '-' :: render2 m) ++ ['月'] := by
    simp
  rw [h3]
  have h4 : ∀ c ∈ render4 y ++ '-' :: render2 m, c ≠ '月' := by
    intro c hc
    rcases List.mem_append.mp hc with h | h
    · obtain ⟨n, hn, rfl⟩ := mem_render4 hy h
      exact digitChar_ne_getsu hn
    · rcases List.mem_cons.mp h with rfl | h
      · decide
      · obtain ⟨k, hk, rfl⟩ := mem_render2 hm h
        exact digitChar_ne_getsu hk
  rw [replaceFirst_not_mem h4]
  simp [replaceFirst]

theorem replace_nengetsu1 {y k : Nat} (hy : y < 10000) (hk : k < 10) :
    replaceFirst '月' [] (replaceFirst '年' ['-']
        (render4 y ++ '年' :: ([digitChar k] ++ ['月'])))
      = render4 y ++ '-' :: [digitChar k] := by
  have h1 : ∀ c ∈ render4 y, c ≠ '年' := by
    intro c hc
    obtain ⟨n, hn, rfl⟩ := mem_render4 hy hc
    exact digitChar_ne_nen hn
  rw [replaceFirst_not_mem h1]
  have h2 : replaceFirst '年' ['-'] ('年' :: ([digitChar k] ++ ['月']))
      = '-' :: ([digitChar k] ++ ['月']) := by
    simp [replaceFirst]
  rw [h2]
  have h3 : render4 y ++ '-' :: ([digitChar k] ++ ['月'])
      = (render4 y ++ '-' :: [digitChar k]) ++ ['月'] := by
    simp
  rw [h3]
  have h4 : ∀ c ∈ render4 y ++ '-' :: [digitChar k], c ≠ '月' := by
    intro c hc
    rcases List.mem_append.mp hc with h | h
    · obtain ⟨n, hn, rfl⟩ := mem_render4 hy h
      exact digitChar_ne_getsu hn
    · rcases List.mem_cons.mp h with rfl | h
      · decide
      · rcases List.mem_singleton.mp h with rfl
        exact digitChar_ne_getsu hk
  rw [replaceFirst_not_mem h4]
  simp [replaceFirst]

/-! ### normalizeMonth on each accepted form -/

theorem normalizeMonthL_core {nativeDate : List Char → Option (Nat × Nat)}
    {cs : List Char} {p : Nat × Nat} (h0 : cs ≠ [])
    (htr : trimChars cs = cs) (hz : endsWithZ cs = false)
    (hc : coreParseYM cs = some p) :
    normalizeMonthL nativeDate cs = canonicalYM p.1 p.2 := by
  unfold normalizeMonthL
  rw [if_neg h0, htr, dayjsCoreYM_of_core hz hc]

theorem normalizeMonthL_sep {nativeDate : List Char → Option (Nat × Nat)} {y m : Nat}
    {sep : Char} (hy1 : 100 ≤ y) (hy2 : y < 10000) (hm : m < 100)
    (hsep : (['-', '/'] : List Char).contains sep = true) :
    normalizeMonthL nativeDate (render4 y ++ sep :: render2 m)
      = canonicalYM (normYM y m).1 (normYM y m).2 := by
  have hs := sep_cases hsep
  have hws : isWS sep = false := by rcases hs with rfl | rfl <;> decide
  have hzz : ((sep == 'Z') || (sep == 'z')) = false := by
    rcases hs with rfl | rfl <;> decide
  rw [normalizeMonthL_core (render4_append_ne_nil y hy2 _)
    (trimChars_eq_self (isWS_form_end y m hy2 hm hws))
    (endsWithZ_all_not (not_Zz_form_end y m hy2 hm hzz))
    (coreParseYM_sep2 hy1 hy2 hm hsep), dateNormFull_day1]

theorem normalizeMonthL_sep_one {nativeDate : List Char → Option (Nat × Nat)}
    {y k : Nat} {sep : Char} (hy1 : 100 ≤ y) (hy2 : y < 10000) (hk : k < 10)
    (hsep : (['-', '/'] : List Char).contains sep = true) :
    normalizeMonthL nativeDate (render4 y ++ sep :: [digitChar k])
      = canonicalYM (normYM y k).1 (normYM y k).2 := by
  have hs := sep_cases hsep
  have hws : isWS sep = false := by rcases hs with rfl | rfl <;> decide
  have hzz : ((sep == 'Z') || (sep == 'z')) = false := by
    rcases hs with rfl | rfl <;> decide
  rw [normalizeMonthL_core (render4_append_ne_nil y hy2 _)
    (trimChars_eq_self (isWS_form_one y k hy2 hk hws))
    (endsWithZ_all_not (not_Zz_form_one y k hy2 hk hzz))
    (coreParseYM_sep1 hy1 hy2 hk hsep), dateNormFull_day1]

theorem normalizeMonthL_ymd {nativeDate : List Char → Option (Nat × Nat)}
    {y m d : Nat} {s1 s2 : Char} (hy1 : 100 ≤ y) (hy2 : y < 10000)
    (hm1 : 1 ≤ m) (hm2 : m ≤ 12) (hd1 : 1 ≤ d) (hd2 : d ≤ daysInMonth y m)
    (hs1 : (['-', '/'] : List Char).contains s1 = true)
    (hs2 : (['-', '/'] : List Char).contains s2 = true) :
    normalizeMonthL nativeDate (render4 y ++ s1 :: (render2 m ++ s2 :: render2 d))
      = canonicalYM y m := by
  have hm : m < 100 := by omega
  have hd : d < 100 := by
    have := daysInMonth_le y m
    omega
  have hc1 := sep_cases hs1
  have hc2 := sep_cases hs2
  have hws1 : isWS s1 = false := by rcases hc1 with rfl | rfl <;> decide
  have hws2 : isWS s2 = false := by rcases hc2 with rfl | rfl <;> decide
  have hzz1 : ((s1 == 'Z') || (s1 == 'z')) = false := by
    rcases hc1 with rfl | rfl <;> decide
  have hzz2 : ((s2 == 'Z') || (s2 == 'z')) = false := by
    rcases hc2 with rfl | rfl <;> decide
  have htail : ∀ c ∈ s2 :: render2 d, isWS c = false := by
    intro c hc
    rcases List.mem_cons.mp hc with rfl | h
    · exact hws2
    · exact isWS_mem_render2 hd h
  have htailz : ∀ c ∈ s2 :: render2 d, ((c == 'Z') || (c == 'z')) = false := by
    intro c hc
    rcases List.mem_cons.mp hc with rfl | h
    · exact hzz2
    · exact not_Zz_mem_render2 hd h
  rw [normalizeMonthL_core (render4_append_ne_nil y hy2 _)
    (trimChars_eq_self (isWS_form y m hy2 hm hws1 htail))
    (endsWithZ_all_not (not_Zz_form y m hy2 hm hzz1 htailz))
    (coreParseYM_ymd hy1 hy2 hm hd hs1 hs2),
    dateNormFull_valid hm1 hm2 hd1 hd2]

theorem normalizeMonthL_dot2 {nativeDate : List Char → Option (Nat × Nat)}
    {y m : Nat} (hy1 : 100 ≤ y) (hy2 : y < 10000) (hm : m < 100) :
    normalizeMonthL nativeDate (render4 y ++ '.' :: render2 m)
      = canonicalYM y 1 := by
  have hday : (1 : Nat) ≤ daysInMonth y 1 := by
    have := daysInMonth_ge y 1
    omega
  rw [normalizeMonthL_core (render4_append_ne_nil y hy2 _)
    (trimChars_eq_self (isWS_form_end y m hy2 hm (by decide)))
    (endsWithZ_all_not (not_Zz_form_end y m hy2 hm (by decide)))
    (coreParseYM_dot2 hy1 hy2 hm),
    dateNormFull_valid (le_refl 1) (by omega) (le_refl 1) hday]

theorem normalizeMonthL_dot1 {nativeDate : List Char → Option (Nat × Nat)}
    {y k : Nat} (hy1 : 100 ≤ y) (hy2 : y < 10000) (hk : k < 10) :
    normalizeMonthL nativeDate (render4 y ++ '.' :: [digitChar k])
      = canonicalYM y 1 := by
  have hday : (1 : Nat) ≤ daysInMonth y 1 := by
    have := daysInMonth_ge y 1
    omega
  rw [normalizeMonthL_core (render4_append_ne_nil y hy2 _)
    (trimChars_eq_self (isWS_form_one y k hy2 hk (by decide)))
    (endsWithZ_all_not (not_Zz_form_one y k hy2 hk (by decide)))
    (coreParseYM_dot1 hy1 hy2 hk),
    dateNormFull_valid (le_refl 1) (by omega) (le_refl 1) hday]

theorem normalizeMonthL_nengetsu2 {nativeDate : List Char → Option (Nat × Nat)}
    {y m : Nat} (hy1 : 100 ≤ y) (hy2 : y < 10000) (hm : m < 100)
    (hnat : nativeDate (render4 y ++ '年' :: (render2 m ++ ['月'])) = none) :
    normalizeMonthL nativeDate (render4 y ++ '年' :: (render2 m ++ ['月']))
      = canonicalYM (normYM y m).1 (normYM y m).2 := by
  have htail : ∀ c ∈ (['月'] : List Char), isWS c = false := by
    intro c hc
    rcases List.mem_singleton.mp hc with rfl
    decide
  have htr := trimChars_eq_self
    (isWS_form y m hy2 hm (show isWS '年' = false by decide) htail)
  unfold normalizeMonthL
  rw [if_neg (render4_append_ne_nil y hy2 _), htr,
    dayjsCoreYM_none (coreParseYM_nengetsu hy2), hnat,
    replace_nengetsu2 hy2 hm,
    dayjsCoreYM_of_core
      (endsWithZ_all_not (not_Zz_form_end y m hy2 hm (by decide)))
      (coreParseYM_sep2 hy1 hy2 hm (by decide)),
    dateNormFull_day1]

theorem normalizeMonthL_nengetsu1 {nativeDate : List Char → Option (Nat × Nat)}
    {y k : Nat} (hy1 : 100 ≤ y) (hy2 : y < 10000) (hk : k < 10)
    (hnat : nativeDate (render4 y ++ '年' :: ([digitChar k] ++ ['月'])) = none) :
    normalizeMonthL nativeDate (render4 y ++ '年' :: ([digitChar k] ++ ['月']))
      = canonicalYM (normYM y k).1 (normYM y k).2 := by
  have hcore : coreParseYM (render4 y ++ '年' :: ([digitChar k] ++ ['月']))
      = none := by
    have hdr : digitRunLen ('年' :: ([digitChar k] ++ ['月'])) = 0 :=
      digitRunLen_cons_nondigit (by decide) _
    have hcr : classRunLen ['T', 't', ' ', '\t', '\n', '\r', '\x0b', '\x0c']
        ('年' :: ([digitChar k] ++ ['月'])) = 0 := classRunLen_cons_notmem (by decide) _
    rw [coreParseYM]
    have hg : reGroups (render4 y ++ '年' :: ([digitChar k] ++ ['月'])) = none := by
      simp only [reGroups, reItems]
      rw [step_y4 hy2, step_cls_skip (by decide), step_dig_absent hdr,
        step_cls_skip (by decide), step_dig_empty hdr, step_star0 hcr,
        step_dig_absent hdr, step_cls_skip (by decide), step_dig_absent hdr,
        step_cls_skip (by decide), step_dig_absent hdr,
        step_cls_skip (by decide), step_dig_absent hdr]
      exact step_end_fail (List.cons_ne_nil _ _)
    rw [hg]
    rfl
  unfold normalizeMonthL
  rw [if_neg (render4_append_ne_nil y hy2 _),
    trimChars_eq_self (isWS_nengetsu1 y k hy2 hk),
    dayjsCoreYM_none hcore, hnat,
    replace_nengetsu1 hy2 hk,
    dayjsCoreYM_of_core
      (endsWithZ_all_not (not_Zz_form_one y k hy2 hk (by decide)))
      (coreParseYM_sep1 hy1 hy2 hk (by decide)),
    dateNormFull_day1]

/-! ### Every parsed month is in range -/

theorem capsToYM_month_bounds {caps : Caps} {p : Nat × Nat}
    (h : capsToYM caps = some p) : 1 ≤ p.2 ∧ p.2 ≤ 12 := by
  unfold capsToYM at h
  split at h
  · have h2 := Option.some.inj h
    rw [← h2]
    exact dateNormFull_month_bounds _ _ _ _
  · simp at h

theorem coreParseYM_month_bounds {cs : List Char} {p : Nat × Nat}
    (h : coreParseYM cs = some p) : 1 ≤ p.2 ∧ p.2 ≤ 12 := by
  unfold coreParseYM at h
  cases hg : reGroups cs with
  | none => rw [hg] at h; simp at h
  | some g =>
    rw [hg] at h
    exact capsToYM_month_bounds h

theorem dayjsCoreYM_month_bounds {nativeDate : List Char → Option (Nat × Nat)}
    (hn : ∀ cs p, nativeDate cs = some p → 1 ≤ p.2 ∧ p.2 ≤ 12)
    {cs : List Char} {p : Nat × Nat} (h : dayjsCoreYM nativeDate cs = some p) :
    1 ≤ p.2 ∧ p.2 ≤ 12 := by
  unfold dayjsCoreYM at h
  by_cases hz : endsWithZ cs = true
  · rw [if_pos hz] at h
    exact hn _ _ h
  · rw [if_neg hz] at h
    cases hc : coreParseYM cs with
    | none =>
      rw [hc] at h
      exact hn _ _ h
    | some q =>
      rw [hc] at h
      have h2 : q = p := Option.some.inj h
      rw [← h2]
      exact coreParseYM_month_bounds hc

/-- Every result of `normalizeMonthL` with an in-range native parser is the
trimmed input or a canonical year-month rendering. -/
theorem normalizeMonthL_shape (nativeDate : List Char → Option (Nat × Nat))
    (hn : ∀ cs p, nativeDate cs = some p → 1 ≤ p.2 ∧ p.2 ≤ 12) (cs : List Char) :
    normalizeMonthL nativeDate cs = trimChars cs ∨
      ∃ y2 m2, 1 ≤ m2 ∧ m2 ≤ 12 ∧
        normalizeMonthL nativeDate cs = canonicalYM y2 m2 := by
  by_cases hnil : cs = []
  · left
    subst hnil
    rfl
  · cases h1 : dayjsCoreYM nativeDate (trimChars cs) with
    | some p =>
      right
      refine ⟨p.1, p.2, (dayjsCoreYM_month_bounds hn h1).1,
        (dayjsCoreYM_month_bounds hn h1).2, ?_⟩
      unfold normalizeMonthL
      rw [if_neg hnil, h1]
    | none =>
      cases h2 : dayjsCoreYM nativeDate
          (replaceFirst '月' [] (replaceFirst '年' ['-'] (trimChars cs))) with
      | some p =>
        right
        refine ⟨p.1, p.2, (dayjsCoreYM_month_bounds hn h2).1,
          (dayjsCoreYM_month_bounds hn h2).2, ?_⟩
        unfold normalizeMonthL
        rw [if_neg hnil, h1, h2]
      | none =>
        left
        unfold normalizeMonthL
        rw [if_neg hnil, h1, h2]

/-- C6 (amended): with the plugin-less dayjs page.tsx actually loads, for any
native parser whose months are in range, any 4-digit year 100..9999, month
1..12 and valid day: (1) `YYYY-MM` and `YYYY/MM` normalize to canonical
`YYYY-MM`; (2) so do the one-digit `YYYY-M`/`YYYY/M`; (3) `YYYY-MM-DD` and
`YYYY/MM/DD` (any separator mix) keep their year-month; (4) the dot forms
`YYYY.MM` and `YYYY.M` parse the trailing digits as milliseconds and so
normalize to January of that year; (5) any two-digit month value, 0 or
out of range included, rolls over through JS `Date` month arithmetic rather
than being rejected; (6) `YYYY年MM月`/`YYYY年M月` normalize canonically
(when the native parser rejects the pre-replacement string, as browsers do);
(7) every output whatsoever is either the trimmed input unchanged or some
canonical `YYYY-MM` rendering - never an error. -/
theorem normalizeMonth_amended (nativeDate : List Char → Option (Nat × Nat))
    (y m d : Nat) (hy1 : 100 ≤ y) (hy2 : y ≤ 9999)
    (hm1 : 1 ≤ m) (hm2 : m ≤ 12) (hd1 : 1 ≤ d) (hd2 : d ≤ daysInMonth y m) :
    (∀ sep, (['-', '/'] : List Char).contains sep = true →
      normalizeMonth nativeDate (String.mk (render4 y ++ sep :: render2 m))
        = String.mk (canonicalYM y m)) ∧
    (∀ sep, (['-', '/'] : List Char).contains sep = true → m ≤ 9 →
      normalizeMonth nativeDate (String.mk (render4 y ++ sep :: [digitChar m]))
        = String.mk (canonicalYM y m)) ∧
    (∀ s1 s2, (['-', '/'] : List Char).contains s1 = true →
      (['-', '/'] : List Char).contains s2 = true →
      normalizeMonth nativeDate
          (String.mk (render4 y ++ s1 :: (render2 m ++ s2 :: render2 d)))
        = String.mk (canonicalYM y m)) ∧
    (normalizeMonth nativeDate (String.mk (render4 y ++ '.' :: render2 m))
        = String.mk (canonicalYM y 1)) ∧
    (m ≤ 9 →
      normalizeMonth nativeDate (String.mk (render4 y ++ '.' :: [digitChar m]))
        = String.mk (canonicalYM y 1)) ∧
    (∀ m2, m2 ≤ 99 →
      normalizeMonth nativeDate (String.mk (render4 y ++ '-' :: render2 m2))
        = String.mk (canonicalYM (normYM y m2).1 (normYM y m2).2)) ∧
    (nativeDate (render4 y ++ '年' :: (render2 m ++ ['月'])) = none →
      normalizeMonth nativeDate
          (String.mk (render4 y ++ '年' :: (render2 m ++ ['月'])))
        = String.mk (canonicalYM y m)) ∧
    (m ≤ 9 → nativeDate (render4 y ++ '年' :: ([digitChar m] ++ ['月'])) = none →
      normalizeMonth nativeDate
          (String.mk (render4 y ++ '年' :: ([digitChar m] ++ ['月'])))
        = String.mk (canonicalYM y m)) ∧
    ((∀ cs p, nativeDate cs = some p → 1 ≤ p.2 ∧ p.2 ≤ 12) →
      ∀ v : String, normalizeMonth nativeDate v = String.mk (trimChars v.data) ∨
        ∃ y2 m2, 1 ≤ m2 ∧ m2 ≤ 12 ∧
          normalizeMonth nativeDate v = String.mk (canonicalYM y2 m2)) := by
  have hy2' : y < 10000 := by omega
  have hm' : m < 100 := by omega
  refine ⟨?_, ?_, ?_, ?_, ?_, ?_, ?_, ?_, ?_⟩
  · intro sep hsep
    have e : normalizeMonthL nativeDate (render4 y ++ sep :: render2 m)
        = canonicalYM (normYM y m).1 (normYM y m).2 :=
      normalizeMonthL_sep hy1 hy2' hm' hsep
    rw [normYM_id hm1 hm2] at e
    exact congrArg String.mk e
  · intro sep hsep hm9
    have e : normalizeMonthL nativeDate (render4 y ++ sep :: [digitChar m])
        = canonicalYM (normYM y m).1 (normYM y m).2 :=
      normalizeMonthL_sep_one hy1 hy2' (show m < 10 by omega) hsep
    rw [normYM_id hm1 hm2] at e
    exact congrArg String.mk e
  · intro s1 s2 hs1 hs2
    exact congrArg String.mk
      (normalizeMonthL_ymd hy1 hy2' hm1 hm2 hd1 hd2 hs1 hs2)
  · exact congrArg String.mk (normalizeMonthL_dot2 hy1 hy2' hm')
  · intro hm9
    exact congrArg String.mk
      (normalizeMonthL_dot1 hy1 hy2' (show m < 10 by omega))
  · intro m2 hm2'
    exact congrArg String.mk
      (normalizeMonthL_sep hy1 hy2' (show m2 < 100 by omega) (by decide))
  · intro hnat
    have e := normalizeMonthL_nengetsu2 hy1 hy2' hm' hnat
    rw [normYM_id hm1 hm2] at e
    exact congrArg String.mk e
  · intro hm9 hnat
    have e := normalizeMonthL_nengetsu1 hy1 hy2' (show m < 10 by omega) hnat
    rw [normYM_id hm1 hm2] at e
    exact congrArg String.mk e
  · intro hn v
    rcases normalizeMonthL_shape nativeDate hn v.data with h | ⟨y2, m2, hb1, hb2, h⟩
    · left
      exact congrArg String.mk h
    · right
      exact ⟨y2, m2, hb1, hb2, congrArg String.mk h⟩

/-- Witness for the amended C6 theorem at the concrete year-month 2025-07
and day 1, with the nothing-accepting native parser. -/
theorem normalizeMonth_amended_witness :
    normalizeMonth nativeNone (String.mk (render4 2025 ++ '-' :: render2 7))
      = String.mk (canonicalYM 2025 7) ∧
    normalizeMonth nativeNone (String.mk (render4 2025 ++ '.' :: render2 7))
      = String.mk (canonicalYM 2025 1) ∧
    normalizeMonth nativeNone (String.mk (render4 2025 ++ '-' :: render2 13))
      = String.mk (canonicalYM (normYM 2025 13).1 (normYM 2025 13).2) ∧
    normalizeMonth nativeNone (String.mk (render4 2025 ++ '年' :: (render2 7 ++ ['月'])))
      = String.mk (canonicalYM 2025 7) := by
  have h := normalizeMonth_amended nativeNone 2025 7 1 (by decide) (by decide)
    (by decide) (by decide) (by decide) (by decide)
  exact ⟨h.1 '-' (by decide), h.2.2.2.1, h.2.2.2.2.2.1 13 (by decide),
    h.2.2.2.2.2.2.1 rfl⟩

end SalesAnalyze
